import Mathlib

/-!
# Verification of the synthetic-data generation pipeline

Shallow embedding of the core of `generate_synthetic_data.py`,
`constraint_resolver.py` and `value_generator.py` (MySQL synthetic data
generator), together with proofs and refutations of the frozen claims
about its specification.

Modelling conventions:
* Python values travelling through rows are the closed tagged sum `Value`
  (`vNull` models Python `None`; integers and strings cover every value the
  modelled paths produce).
* A row is an association list `Row`; `Row.get` returns `vNull` for an
  absent key, exactly matching `dict.get(k)` which yields `None` both for a
  missing key and for a stored `None`.
* Randomness is abstracted by `PyRand`, a finite tape of naturals: each
  primitive (`randint`, `choice`, `shuffle`) consumes tape entries.  The
  tape stands for the output of Python's seeded Mersenne-Twister stream;
  theorems quantify over tapes, counterexamples pick concrete tapes.
* `random.shuffle` is modelled by a tape-driven selection shuffle
  (`pyShuffle`), which realises a permutation chosen by the tape.
-/

set_option maxHeartbeats 1000000
set_option maxRecDepth 100000

namespace SynthGen

/-- The closed sum of values a generated row can hold (spec §9 "Dynamic
typing of column values", restricted to the constructors the modelled
code paths produce).  `vNull` is Python `None`. -/
inductive Value where
  | vNull : Value
  | vInt (n : Int) : Value
  | vStr (s : String) : Value
deriving DecidableEq, Repr

/-- Python `str(value)` on the values we model. -/
def Value.pyStr : Value → String
  | .vNull => "None"
  | .vInt n => toString n
  | .vStr s => s

/-- A generated row: an association list from column name to value
(`dict` in the source).  Key order is insertion order, as in Python. -/
def Row := List (String × Value)
deriving DecidableEq, Repr

instance : Inhabited Row := ⟨([] : List (String × Value))⟩

/-- Association-list lookup, `m.get(k)` returning `none` when absent. -/
def alookup {β : Type} (m : List (String × β)) (k : String) : Option β :=
  match m with
  | [] => none
  | (k₂, v) :: rest => if k₂ = k then some v else alookup rest k

/-- Association-list update `m[k] = v`: replaces the first binding of `k`,
appends a new binding when `k` is absent (Python dict semantics: updates
keep the key's original position, fresh keys go last). -/
def aset {β : Type} (m : List (String × β)) (k : String) (v : β) :
    List (String × β) :=
  match m with
  | [] => [(k, v)]
  | (k₂, w) :: rest => if k₂ = k then (k₂, v) :: rest else (k₂, w) :: aset rest k v

/-- `row.get(c)`: `vNull` both for an absent key and a stored null,
matching `dict.get` with the code's uniform `is None` tests. -/
def Row.get (r : Row) (c : String) : Value :=
  (alookup r c).getD .vNull

/-- `row[c] = v`. -/
def Row.set (r : Row) (c : String) (v : Value) : Row := aset r c v

/-! ## The abstract random tape -/

/-- Abstraction of a seeded `random.Random` instance: a finite tape of
naturals standing for the PRNG's output stream. -/
structure PyRand where
  tape : List Nat
deriving DecidableEq, Repr

/-- Consume one tape entry (0 when the tape is exhausted). -/
def PyRand.next : PyRand → Nat × PyRand
  | ⟨[]⟩ => (0, ⟨[]⟩)
  | ⟨n :: t⟩ => (n, ⟨t⟩)

/-- `rng.randint(a, b)`: uniform on the inclusive range, driven by one
tape entry.  Callers in the modelled code always have `a ≤ b`. -/
def PyRand.randint (rng : PyRand) (a b : Int) : Value × PyRand :=
  let (n, rng') := rng.next
  (.vInt (a + Int.ofNat (n % ((b - a + 1).toNat.max 1))), rng')

/-- `rng.choice(xs)` for non-empty `xs`; one tape entry selects the index.
On `[]` (never reached through the source's guards) returns `vNull`. -/
def PyRand.choice (rng : PyRand) (xs : List Value) : Value × PyRand :=
  match xs with
  | [] => (.vNull, rng)
  | _ =>
    let (n, rng') := rng.next
    ((xs.get? (n % xs.length)).getD .vNull, rng')

/-- Tape-driven selection shuffle, structurally recursive on a fuel that
callers set to the list length: repeatedly extract the element at a
tape-chosen index. -/
def pyShuffleGo {α : Type} : Nat → PyRand → List α → List α × PyRand
  | _, rng, [] => ([], rng)
  | 0, rng, _ :: _ => ([], rng)
  | fuel + 1, rng, a :: tl =>
    let (n, rng') := rng.next
    let i := n % (a :: tl).length
    let (rest, rng'') := pyShuffleGo fuel rng' ((a :: tl).eraseIdx i)
    (((a :: tl).get? i).getD a :: rest, rng'')

/-- Models `random.shuffle` (any permutation is realisable by a suitable
tape). -/
def pyShuffleL {α : Type} (rng : PyRand) (l : List α) : List α × PyRand :=
  pyShuffleGo l.length rng l

/-! ## String helpers mirroring Python idioms -/

/-- `s.lower()` (ASCII), as a kernel-reducible list map. -/
def strToLower (s : String) : String := String.mk (s.data.map Char.toLower)

/-- `pat in s` (Python substring test), on character lists. -/
def listContainsSub (s pat : List Char) : Bool :=
  match s with
  | [] => pat.isEmpty
  | _ :: rest => pat.isPrefixOf s || listContainsSub rest pat

/-- `pat in s` for strings. -/
def containsSub (s pat : String) : Bool := listContainsSub s.data pat.data

/-- Zero-pad a decimal string on the left to width `w` (Python `{:08d}`
style for non-negative arguments). -/
def zeroPad (w : Nat) (s : String) : String :=
  if s.length < w then String.mk (List.replicate (w - s.length) '0') ++ s else s

/-- `"seq_{0:08d}".format(n)`. -/
def seqFormat (n : Nat) : String := "seq_" ++ zeroPad 8 (toString n)

/-- Python slice `s[:k]` for `k ≥ 0`. -/
def strTake (s : String) (k : Nat) : String := String.mk (s.data.take k)

/-- Python slice `s[1:k]` for `k ≥ 0`. -/
def strDrop1Take (s : String) (k : Nat) : String :=
  String.mk ((s.data.take k).drop 1)

/-- The single-quote character, written via its code point. -/
def quoteChar : Char := Char.ofNat 39

/-- Collapse doubled single quotes (`v.replace("''", "'")`). -/
def unescapeQuotes : List Char → List Char
  | [] => []
  | [c] => [c]
  | c₁ :: c₂ :: rest₂ =>
    if c₁ = quoteChar ∧ c₂ = quoteChar then quoteChar :: unescapeQuotes rest₂
    else c₁ :: unescapeQuotes (c₂ :: rest₂)

/-- Body scanner for the regex `'((?:[^']|(?:''))*)'` : starting right
after an opening quote, return the greedily matched content (escapes kept
doubled) and the remainder after the closing quote; `none` when no overall
match exists.  The `none`-fallback in the doubled-quote case realises the
regex engine's backtracking. -/
def enumContent : Nat → List Char → Option (List Char × List Char)
  | 0, _ => none
  | _ + 1, [] => none
  | fuel + 1, c :: rest =>
    if c = quoteChar then
      match rest with
      | c₂ :: rest₂ =>
        if c₂ = quoteChar then
          match enumContent fuel rest₂ with
          | some (s, r) => some (quoteChar :: quoteChar :: s, r)
          | none => some ([], rest)
        else some ([], rest)
      | [] => some ([], [])
    else
      match enumContent fuel rest with
      | some (s, r) => some (c :: s, r)
      | none => none

/-- `re.findall(r"'((?:[^']|(?:''))*)'", s)`: every quoted chunk, left to
right. -/
def enumFindAll : Nat → List Char → List (List Char)
  | 0, _ => []
  | _ + 1, [] => []
  | fuel + 1, c :: rest =>
    if c = quoteChar then
      match enumContent (rest.length + 1) rest with
      | some (s, r) => s :: enumFindAll fuel r
      | none => enumFindAll fuel rest
    else enumFindAll fuel rest

/-- Parse the literal list out of a MySQL `enum(...)`/`set(...)` column
type, exactly as the source's regex + `replace("''", "'")` does
(`generate_synthetic_data.py` lines 606-607). -/
def parseEnumVals (columnType : String) : List String :=
  (enumFindAll (columnType.data.length + 1) columnType.data).map
    (fun cs => String.mk (unescapeQuotes cs))

/-- `re.search(r"age|years? ", cname, re.I)`: the column-name heuristic for
age-like integer columns (note the regex's trailing space). -/
def ageLikeName (cname : String) : Bool :=
  let l := strToLower cname
  containsSub l "age" || containsSub l "year " || containsSub l "years "

/-- `int(col.char_max_length) if col.char_max_length else d`: Python
truthiness sends both `None` and `0` to the default. -/
def pyMaxlen (cml : Option Nat) (d : Nat) : Nat :=
  match cml with
  | none => d
  | some 0 => d
  | some n => n

/-- `s.split(" ")[0]`. -/
def firstToken (s : String) : String := String.mk (s.data.takeWhile (· ≠ ' '))

/-- `",".join(l)`. -/
def joinComma : List String → String
  | [] => ""
  | [s] => s
  | s :: rest => s ++ "," ++ joinComma rest

/-! ## Schema model (mirrors the namedtuples of the missing
`generate_synthetic_data_utils`, restricted to the fields the modelled
code reads) -/

/-- `ColumnMeta` (COLUMN_NAME, DATA_TYPE, IS_NULLABLE, COLUMN_TYPE,
CHARACTER_MAXIMUM_LENGTH, NUMERIC_PRECISION, NUMERIC_SCALE; the unused
COLUMN_KEY/EXTRA/COLUMN_DEFAULT fields are omitted). -/
structure ColumnMeta where
  name : String
  data_type : String
  is_nullable : String
  column_type : String := ""
  char_max_length : Option Nat := none
  numeric_precision : Option Nat := none
  numeric_scale : Option Nat := none
deriving DecidableEq, Repr

/-- `TableMeta(schema, name, columns, pk_columns, auto_increment, engine)`
(the unused engine field is omitted). -/
structure TableMeta where
  schema : String
  tname : String
  columns : List ColumnMeta
  pk_columns : List String
  auto_increment : Bool
deriving DecidableEq, Repr

/-- `UniqueConstraint(constraint_name, columns)`. -/
structure UniqueConstraint where
  constraint_name : String
  columns : List String
deriving DecidableEq, Repr

/-- Modelled from the spec: the parsed form of a conditional-FK predicate
`<column> = '<literal>'` (§4.5 predicate grammar); the parser
`parse_fk_condition` lives in the missing utils module, so conditions are
carried pre-parsed. -/
structure FKCond where
  column : String
  literal : String
deriving DecidableEq, Repr

/-- `FKMeta` from the missing utils module (fields as constructed
throughout `generate_synthetic_data.py`); `condition` is `none` for an
unconditional FK. -/
structure FKMeta where
  constraint_name : String
  table_schema : String
  table_name : String
  column_name : String
  referenced_table_schema : String
  referenced_table_name : String
  referenced_column_name : String
  is_logical : Bool := true
  condition : Option FKCond := none
deriving DecidableEq, Repr

/-- Parsed per-column `populate_columns` entry (`values`, `min`, `max`;
the `format` key is outside the modelled paths). -/
structure ColConfig where
  values : Option (List Value) := none
  minV : Option Int := none
  maxV : Option Int := none
deriving DecidableEq, Repr

/-- A `static_fks` configuration entry. -/
structure StaticFK where
  column : String
  static_schema : String
  static_table : String
  static_column : String
deriving DecidableEq, Repr

/-- The per-table configuration entry fields read by the modelled code. -/
structure TableCfg where
  schema : String
  table : String
  rows : Option Int := none
  populate_columns_present : Bool := false
  static_fks : List StaticFK := []
  explicit_pk : Bool := false
deriving DecidableEq, Repr

/-- Modelled from the spec: `evaluate_fk_condition` from the missing utils
module — the predicate `<column> = '<literal>'` holds iff the row's
discriminator value is exactly the string literal (§4.5; a missing column
reads as null and the predicate is false). -/
def evaluate_fk_condition (c : FKCond) (row : Row) : Bool :=
  row.get c.column = Value.vStr c.literal

/-! ## Modelled random value helpers

The helpers below live in the missing `generate_synthetic_data_utils`
module; each is modelled from the spec (§4.4 default rules), driven by the
abstract tape. -/

/-- `rng.randint(a, b)` returning a bare natural mod the range size;
internal helper for ranges known non-negative. -/
def PyRand.randNat (rng : PyRand) (a b : Nat) : Nat × PyRand :=
  let (n, rng') := rng.next
  (a + n % (b - a + 1), rng')

/-- Modelled from the spec: `rand_choice(rng, pool)` — uniform draw from a
pool, null on an empty pool. -/
def rand_choice (rng : PyRand) (xs : List Value) : Value × PyRand :=
  match xs with
  | [] => (.vNull, rng)
  | _ =>
    let (n, rng') := rng.next
    ((xs.get? (n % xs.length)).getD .vNull, rng')

/-- Modelled from the spec: `rand_string(rng, k)` — a random alphanumeric
string of length `k`. -/
def rand_string (rng : PyRand) (k : Nat) : Value × PyRand :=
  let (n, rng') := rng.next
  (.vStr (String.mk (List.replicate k (Char.ofNat (97 + n % 26)))), rng')

/-- Modelled from the spec: `rand_email(rng)` — a synthetic email. -/
def rand_email (rng : PyRand) : Value × PyRand :=
  let (n, rng') := rng.next
  (.vStr ("user" ++ toString n ++ "@example.com"), rng')

/-- Modelled from the spec: `rand_name(rng)` — first/last from small name
pools. -/
def rand_name (rng : PyRand) : Value × PyRand :=
  let (n, rng') := rng.next
  (.vStr ("Name" ++ toString n), rng')

/-- Modelled from the spec: `rand_phone(rng)` — `NNN-NNN-NNNN`. -/
def rand_phone (rng : PyRand) : Value × PyRand :=
  let (n, rng') := rng.next
  (.vStr ("555-555-" ++ zeroPad 4 (toString (n % 10000))), rng')

/-- Modelled from the spec: `rand_datetime(rng)` — a datetime string
between 2010 and the current year. -/
def rand_datetime (rng : PyRand) : String × PyRand :=
  let (n, rng') := rng.next
  (toString (2010 + n % 15) ++ "-01-01 00:00:00", rng')

/-- Modelled from the spec: `rand_decimal_str(rng, prec, scale)` — a
decimal string uniform at the declared precision and scale. -/
def rand_decimal_str (rng : PyRand) (prec scale : Nat) : Value × PyRand :=
  let (n, rng') := rng.next
  (.vStr (toString (n % (10 ^ (prec - scale)))), rng')

/-- Modelled from the spec: `generate_value_with_config(rng, col, cfg)` —
`values` takes precedence, else uniform on the inclusive `min`/`max` range
(`max` defaulting as in `constraint_resolver.py`). -/
def generate_value_with_config (rng : PyRand) (_col : ColumnMeta) (cc : ColConfig) :
    Value × PyRand :=
  match cc.values with
  | some vs => rand_choice rng vs
  | none =>
    match cc.minV with
    | some a => rng.randint a (cc.maxV.getD 100)
    | none => (.vNull, rng)

/-- Modelled from the spec: `generate_unique_value_pool(col, cfg, n, rng)`
— a shuffled pool of up to `n` distinct values from the declared `values`
or `min`/`max` domain (§4.3; the large-range sampling optimisation is not
modelled). -/
def generate_unique_value_pool (_col : ColumnMeta) (cc : ColConfig) (n : Nat)
    (rng : PyRand) : List Value × PyRand :=
  match cc.values with
  | some vs =>
    let (sh, rng') := pyShuffleL rng vs.dedup
    (sh.take n, rng')
  | none =>
    match cc.minV, cc.maxV with
    | some a, some b =>
      let dom := (List.range (b - a + 1).toNat).map (fun k => Value.vInt (a + k))
      let (sh, rng') := pyShuffleL rng dom
      (sh.take n, rng')
    | _, _ => ([], rng)

/-! ## Embedding of `FastSyntheticGenerator.generate_batch_fast`
(`generate_synthetic_data.py` lines 383-660) -/

/-- One global unique value pool entry
(`{"pool": [...], "cursor": 0, "size": N}`). -/
structure PoolData where
  pool : List Value
  cursor : Nat
  size : Nat
deriving DecidableEq, Repr

/-- The generator's shared mutable state touched by row generation:
`global_unique_value_pools`, `composite_unique_counters`, `pk_next_vals`. -/
structure SharedState where
  global_unique_value_pools : List (String × PoolData) := []
  composite_unique_counters : List (String × Nat) := []
  pk_next_vals : List (String × Int) := []
deriving DecidableEq, Repr

/-- The per-table slice of `self` that `generate_batch_fast` reads:
the node key, its metadata, configuration entry, FK column set,
parsed populate-columns config, unique constraints, whether the table is a
forced-explicit parent, and the static samples map. -/
structure GenEnv where
  node : String
  tmeta : TableMeta
  cfg : Option TableCfg := none
  fk_cols : List String := []
  populate_config : List (String × ColConfig) := []
  unique_constraints : List UniqueConstraint := []
  forced_explicit : Bool := false
  static_samples : List (String × List Value) := []
deriving Repr

/-- Update one sequential counter. -/
def SharedState.setCounter (st : SharedState) (k : String) (v : Nat) : SharedState :=
  { st with composite_unique_counters := aset st.composite_unique_counters k v }

/-- Update one global unique pool entry. -/
def SharedState.setPool (st : SharedState) (k : String) (v : PoolData) : SharedState :=
  { st with global_unique_value_pools := aset st.global_unique_value_pools k v }

/-- Update one PK sequence counter. -/
def SharedState.setPkNext (st : SharedState) (k : String) (v : Int) : SharedState :=
  { st with pk_next_vals := aset st.pk_next_vals k v }

/-- `dtype in ("varchar", "char", "text", "mediumtext", "longtext")`. -/
def isStrType (dtype : String) : Bool :=
  ["varchar", "char", "text", "mediumtext", "longtext"].contains dtype

/-- `"int" in dtype or dtype in ("bigint", "smallint", "mediumint",
"tinyint")`. -/
def isIntType (dtype : String) : Bool :=
  containsSub dtype "int" ||
    ["bigint", "smallint", "mediumint", "tinyint"].contains dtype

/-- `single_unique_cols`: the columns of length-1 unique constraints. -/
def singleUniqueCols (ucs : List UniqueConstraint) : List String :=
  ucs.filterMap (fun uc =>
    match uc.columns with
    | [c] => some c
    | _ => none)

/-- `composite_unique_constraints`: constraints of length ≠ 1. -/
def compositeUniqueConstraints (ucs : List UniqueConstraint) : List UniqueConstraint :=
  ucs.filter (fun uc => uc.columns.length ≠ 1)

/-- `col_name in populate_config and ("values" in ... or "min" in ...)`:
whether a column is controlled by its populate-columns entry. -/
def isControlledCol (populate_config : List (String × ColConfig)) (c : String) : Bool :=
  match alookup populate_config c with
  | some cc => cc.values.isSome || cc.minV.isSome
  | none => false

/-- `cols_needing_sequential` (lines 427-457): uncontrolled, non-FK,
non-PK columns of composite unique constraints that also contain at least
one controlled column. -/
def colsNeedingSequential (composite : List UniqueConstraint)
    (populate_config : List (String × ColConfig)) (fk_cols : List String)
    (pk_cols : List String) : List String :=
  composite.foldl (fun acc uc =>
    let isCtrl := fun c =>
      isControlledCol populate_config c || fk_cols.contains c || pk_cols.contains c
    let controlled := uc.columns.filter isCtrl
    let uncontrolled := uc.columns.filter (fun c => ¬ isCtrl c)
    if uncontrolled ≠ [] ∧ controlled ≠ [] then acc ++ uncontrolled else acc) []

/-- `unique_cols_with_global_pools` (lines 413-419): single-column-unique,
non-PK columns whose populate entry has `min`/`values` and whose global
pool exists. -/
def uniqueColsWithGlobalPools (env : GenEnv) (st : SharedState) : List String :=
  (singleUniqueCols env.unique_constraints).filter (fun c =>
    match alookup env.populate_config c with
    | some cc =>
      ¬ env.tmeta.pk_columns.contains c ∧ (cc.minV.isSome || cc.values.isSome) ∧
        (alookup st.global_unique_value_pools (env.node ++ "." ++ c)).isSome
    | none => false)

/-- The classification `generate_batch_fast` computes once per batch
(lines 393-457). -/
structure BatchPre where
  single_unique_cols : List String
  composite_ucs : List UniqueConstraint
  all_unique_cols : List String
  pools_cols : List String
  seq_cols : List String
deriving Repr

/-- Lines 393-457 of `generate_batch_fast`. -/
def batchPre (env : GenEnv) (st : SharedState) : BatchPre :=
  let single := singleUniqueCols env.unique_constraints
  let comp := compositeUniqueConstraints env.unique_constraints
  { single_unique_cols := single
    composite_ucs := comp
    all_unique_cols := single ++ comp.foldl (fun a uc => a ++ uc.columns) []
    pools_cols := uniqueColsWithGlobalPools env st
    seq_cols := colsNeedingSequential comp env.populate_config env.fk_cols
      env.tmeta.pk_columns }

/-- The static-FK entry configured for one column (`for sf in
cfg.get("static_fks", []) ... if sf["column"] == cname`). -/
def staticHitFor (cfg : Option TableCfg) (cname : String) : Option StaticFK :=
  match cfg with
  | some cfg => cfg.static_fks.find? (fun sf => sf.column = cname)
  | none => none

/-- The monolith's skip test for nullable, unconstrained, unconfigured
columns (lines 519-521); the modular generator has no counterpart. -/
abbrev skipsNullable (env : GenEnv) (pre : BatchPre) (col : ColumnMeta) : Prop :=
  col.is_nullable = "YES" ∧ ¬ pre.all_unique_cols.contains col.name ∧
    ((env.cfg.map (fun c : TableCfg => c.populate_columns_present)).getD false
        = false ∨
      (alookup env.populate_config col.name).isNone)

/-- The single-column-UNIQUE string suffix logic (lines 555-564 and
593-601): append `_<batch_idx>`, truncating the base to fit the column
length. -/
def uniqueSuffix (base : Value) (cml : Option Nat) (batch_idx : Nat) : Value :=
  let maxlen := pyMaxlen cml 255
  let base_str := base.pyStr
  let suffix := "_" ++ toString batch_idx
  if (maxlen : Int) - suffix.length < 1 then .vStr (strDrop1Take suffix maxlen)
  else .vStr (strTake (strTake base_str (maxlen - suffix.length) ++ suffix) maxlen)

/-- The default value rules (monolith lines 569-636; the modular
`_generate_default_value` is textually the same code, value_generator
lines 404-488). -/
def defaultValueFor (single_unique_cols : List String) (batch_idx : Nat)
    (cname : String) (col : ColumnMeta) (rng : PyRand) : Value × PyRand :=
  let dtype := strToLower col.data_type
  if isIntType dtype then
    if single_unique_cols.contains cname then (.vInt batch_idx, rng)
    else if ageLikeName cname then rng.randint 18 80 else rng.randint 0 10000
  else if ["decimal", "numeric", "float", "double"].contains dtype then
    rand_decimal_str rng (pyMaxlen col.numeric_precision 10)
      (pyMaxlen col.numeric_scale 0)
  else if isStrType dtype then
    let lname := strToLower cname
    let (base, rng') :=
      if containsSub lname "email" then rand_email rng
      else if containsSub lname "name" then rand_name rng
      else if containsSub lname "phone" then rand_phone rng
      else rand_string rng (min (pyMaxlen col.char_max_length 24) 24)
    if single_unique_cols.contains cname ∧ base ≠ .vNull then
      (uniqueSuffix base col.char_max_length batch_idx, rng')
    else (base, rng')
  else if ["date", "datetime", "timestamp"].contains dtype then
    let (dt, rng') := rand_datetime rng
    (.vStr (if dtype = "date" then firstToken dt else dt), rng')
  else if dtype = "enum" then
    let vals := (parseEnumVals col.column_type).map Value.vStr
    rand_choice rng vals
  else if dtype = "set" then
    let set_values := parseEnumVals col.column_type
    if set_values ≠ [] then
      let (k, rng') := rng.randNat 0 set_values.length
      if k = 0 then (.vStr "", rng')
      else
        let (shuffled, rng'') := pyShuffleL rng' set_values
        let selected := shuffled.take k
        (.vStr (joinComma (set_values.filter (fun v => selected.contains v))),
          rng'')
    else (.vStr "", rng)
  else if col.is_nullable = "NO" then rand_string rng 8
  else (.vNull, rng)

/-- The sequential-value formatting shared by both generators
(monolith lines 499-514, value_generator lines 356-370). -/
def seqValueFor (col : ColumnMeta) (cval : Nat) : Value :=
  let dtype := strToLower col.data_type
  let maxlen := pyMaxlen col.char_max_length 255
  if isStrType dtype then .vStr (strTake (seqFormat cval) maxlen)
  else if isIntType dtype then .vInt cval
  else
    .vStr (if maxlen ≠ 0 then strTake (seqFormat cval) maxlen
           else seqFormat cval)

/-- The default value generation of `generate_batch_fast`
(lines 569-636), writing the shared default rules into the row. -/
def processColumnDefault (_env : GenEnv) (pre : BatchPre) (batch_idx : Nat)
    (col : ColumnMeta) (row : Row) (st : SharedState) (rng : PyRand) :
    Row × SharedState × PyRand :=
  let (v, rng') := defaultValueFor pre.single_unique_cols batch_idx col.name
    col rng
  (row.set col.name v, st, rng')

/-- The body of the per-column loop of `generate_batch_fast`
(lines 462-636), one column at a time.  Returns the updated row, shared
state and tape. -/
def processColumnFast (env : GenEnv) (pre : BatchPre) (batch_idx : Nat)
    (col : ColumnMeta) (row : Row) (st : SharedState) (rng : PyRand) :
    Row × SharedState × PyRand :=
  let cname := col.name
  -- auto-increment PK columns stay null unless forced explicit (line 465)
  if env.tmeta.pk_columns.contains cname ∧ env.tmeta.auto_increment ∧
      ¬ env.forced_explicit then
    (row.set cname .vNull, st, rng)
  else
    -- static FK columns draw from the pre-sampled pool (lines 469-479)
    match staticHitFor env.cfg cname with
    | some sf =>
      let key := sf.static_schema ++ "." ++ sf.static_table ++ "." ++ sf.static_column
      let pool := (alookup env.static_samples key).getD []
      let (v, rng') := rand_choice rng pool
      (row.set cname v, st, rng')
    | none =>
      -- FK columns are left null for the resolver (line 481)
      if env.fk_cols.contains cname then (row.set cname .vNull, st, rng)
      else
        let dtype := strToLower col.data_type
        -- PRIORITY 0: sequential generation (lines 489-514)
        if pre.seq_cols.contains cname then
          let counter_key := env.node ++ "." ++ cname
          let cval := (alookup st.composite_unique_counters counter_key).getD 0
          let st' := st.setCounter counter_key (cval + 1)
          (row.set cname (seqValueFor col cval), st', rng)
        else
          -- nullable unconstrained unconfigured columns are skipped (519-521)
          if skipsNullable env pre col then
            (row, st, rng)
          else
            -- PRIORITY 1: global unique value pool (lines 526-544)
            if pre.pools_cols.contains cname then
              let pool_key := env.node ++ "." ++ cname
              match alookup st.global_unique_value_pools pool_key with
              | some pd =>
                if pd.cursor < pd.size then
                  let st' := st.setPool pool_key { pd with cursor := pd.cursor + 1 }
                  (row.set cname ((pd.pool.get? pd.cursor).getD .vNull), st', rng)
                else (row.set cname .vNull, st, rng)
              | none => (row.set cname .vNull, st, rng)
            else
              -- PRIORITY 2: extended populate-columns config (lines 547-567)
              match alookup env.populate_config cname with
              | some cc =>
                if cc.values.isSome || cc.minV.isSome then
                  let (base, rng') := generate_value_with_config rng col cc
                  if pre.single_unique_cols.contains cname ∧ isStrType dtype ∧
                      base ≠ .vNull then
                    (row.set cname (uniqueSuffix base col.char_max_length batch_idx),
                      st, rng')
                  else (row.set cname base, st, rng')
                else
                  processColumnDefault env pre batch_idx col row st rng
              | none => processColumnDefault env pre batch_idx col row st rng

/-- One generated row (the per-`batch_idx` body, lines 460-642),
including the single-column PK sequence assignment (lines 638-642). -/
def genRowFast (env : GenEnv) (pre : BatchPre) (batch_idx : Nat)
    (st : SharedState) (rng : PyRand) : Row × SharedState × PyRand :=
  let step := env.tmeta.columns.foldl
    (fun (acc : Row × SharedState × PyRand) col =>
      processColumnFast env pre batch_idx col acc.1 acc.2.1 acc.2.2)
    (([] : List (String × Value)), st, rng)
  let (row, st', rng') := step
  match alookup st'.pk_next_vals env.node, env.tmeta.pk_columns with
  | some v, [pk] =>
    ((row.set pk (.vInt v)), st'.setPkNext env.node (v + 1), rng')
  | _, _ => (row, st', rng')

/-- Per-batch duplicate trackers
(`local_trackers = {uc.constraint_name: set() ...}`, keyed by constraint
name). -/
abbrev Trackers := List (String × List (List Value))

/-- Initial trackers: one (empty) entry per distinct constraint name. -/
def initTrackers (ucs : List UniqueConstraint) : Trackers :=
  ucs.foldl (fun acc uc =>
    if (alookup acc uc.constraint_name).isSome then acc
    else acc ++ [(uc.constraint_name, [])]) []

/-- `tuple(row.get(col) for col in uc.columns)`. -/
def tupleOf (uc : UniqueConstraint) (row : Row) : List Value :=
  uc.columns.map row.get

/-- The tuples recorded under one constraint name. -/
def trkD (trk : Trackers) (name : String) : List (List Value) :=
  (alookup trk name).getD []

/-- The validation loop of `generate_batch_fast` (lines 644-653): check
each constraint's fully-non-null tuple against its tracker, break on a
duplicate, record fresh tuples. -/
def validateRow (trk : Trackers) (row : Row) :
    List UniqueConstraint → Bool × Trackers
  | [] => (true, trk)
  | uc :: rest =>
    let combo := tupleOf uc row
    if combo.contains Value.vNull then validateRow trk row rest
    else if (trkD trk uc.constraint_name).contains combo then
      (false, trk)
    else
      validateRow
        (aset trk uc.constraint_name (trkD trk uc.constraint_name ++ [combo]))
        row rest

/-- One iteration of the batch loop: generate a row, validate it, keep it
when valid (lines 459-658). -/
def genBatchStep (env : GenEnv) (pre : BatchPre)
    (acc : List Row × Trackers × SharedState × PyRand) (batch_idx : Nat) :
    List Row × Trackers × SharedState × PyRand :=
  let (rows, trk, st, rng) := acc
  let (row, st', rng') := genRowFast env pre batch_idx st rng
  let (ok, trk') := validateRow trk row env.unique_constraints
  (if ok then rows ++ [row] else rows, trk', st', rng')

/-- `FastSyntheticGenerator.generate_batch_fast(node, start, end,
thread_rng, tmeta, cfg)`: the returned row list together with the updated
shared state. -/
def generate_batch_fast (env : GenEnv) (start_idx end_idx : Nat)
    (rng : PyRand) (st : SharedState) : List Row × SharedState :=
  let pre := batchPre env st
  let res := ((List.range (end_idx - start_idx)).map (start_idx + ·)).foldl
    (genBatchStep env pre)
    ([], initTrackers env.unique_constraints, st, rng)
  (res.1, res.2.2.1)

/-! ## Embedding of `generate_parallel` and the pool initialisation
(`generate_synthetic_data.py` lines 676-767) -/

/-- A composite logical FK configuration dict (the keys read by the
modelled code). -/
structure CompositeFK where
  constraint_name : String
  table_schema : String
  table_name : String
  child_columns : List String
  referenced_table_schema : String
  referenced_table_name : String
  referenced_columns : List String
  condition : Option FKCond := none
deriving DecidableEq, Repr

/-- The orchestrator state read by generation and FK resolution (the
relevant fields of `FastSyntheticGenerator.__init__`/`introspect`). -/
structure GenSelf where
  metadata : List (String × TableMeta) := []
  table_map : List (String × TableCfg) := []
  fk_columns : List (String × List String) := []
  populate_columns_config : List (String × List (String × ColConfig)) := []
  unique_constraints : List (String × List UniqueConstraint) := []
  forced_explicit_parents : List String := []
  static_samples : List (String × List Value) := []
  fks : List FKMeta := []
  logical_composite_fks : List CompositeFK := []
  default_rows_per_table : Int := 100
  seed : Int := 42
  threads : Nat := 4
deriving Repr

/-- Build the `GenEnv` slice of `self` for one node. -/
def GenSelf.envFor (self : GenSelf) (node : String) (tmeta : TableMeta) : GenEnv :=
  { node := node
    tmeta := tmeta
    cfg := alookup self.table_map node
    fk_cols := (alookup self.fk_columns node).getD []
    populate_config := (alookup self.populate_columns_config node).getD []
    unique_constraints := (alookup self.unique_constraints node).getD []
    forced_explicit := self.forced_explicit_parents.contains node
    static_samples := self.static_samples }

/-- `initialize_global_unique_pools(node, num_rows)` (lines 676-725).
Python iterates the `single_unique_cols` *set*; the embedding fixes the
iteration to first-occurrence order. -/
def initialize_global_unique_pools (env : GenEnv) (num_rows : Nat)
    (st : SharedState) (mainRng : PyRand) : SharedState × PyRand :=
  (singleUniqueCols env.unique_constraints).foldl
    (fun (acc : SharedState × PyRand) col_name =>
      let (st, rng) := acc
      match alookup env.populate_config col_name with
      | some cc =>
        if ¬ env.tmeta.pk_columns.contains col_name ∧
            (cc.minV.isSome || cc.values.isSome) then
          let pool_key := env.node ++ "." ++ col_name
          if (alookup st.global_unique_value_pools pool_key).isSome then (st, rng)
          else
            match env.tmeta.columns.find? (fun c => c.name = col_name) with
            | some cm =>
              let (pool, rng') := generate_unique_value_pool cm cc num_rows rng
              (st.setPool pool_key ⟨pool, 0, pool.length⟩, rng')
            | none => (st, rng)
        else (st, rng)
      | none => (st, rng))
    (st, mainRng)

/-- `generate_parallel(order, rows_per_table)` (lines 727-767) for the
tables of `order`.

Runtime parameters of the embedding: `mkStream` maps a `random.Random`
seed to its output tape (the Mersenne-Twister abstraction), `pyHash` is
the interpreter's salted `hash` on strings, and `completion` is the
`as_completed` collection order of chunk results — on the modelled
domain it is never consulted.

The embedding covers only the non-threaded branch (line 744:
`num_rows < 1000 or max_workers == 1`).  On the threaded branch the
worker chunks read and update the shared `composite_unique_counters`,
global pool cursors and `pk_next_vals` under locks in a
scheduling-dependent acquisition order that can change the produced
rows themselves; that interleaving is not modelled, so the threaded
branch yields `none` and no theorem below asserts anything about it.
`genParStep` processes one table of the order. -/
def genParStep (self : GenSelf) (mkStream : Int → List Nat)
    (pyHash : String → Int) (completion : List (List Row) → List (List Row))
    (rows_per_table : List (String × Int))
    (acc : Option (List (String × List Row) × SharedState × PyRand))
    (node : String) :
    Option (List (String × List Row) × SharedState × PyRand) :=
  match acc with
  | none => none
  | some (gen, st, mainRng) =>
    match alookup self.metadata node with
    | none => some (gen, st, mainRng)
    | some tmeta =>
      let env := self.envFor node tmeta
      let num_rows : Int := (alookup rows_per_table node).getD
        self.default_rows_per_table
      let n := num_rows.toNat
      let (st, mainRng) := initialize_global_unique_pools env n st mainRng
      if num_rows < 1000 ∨ self.threads = 1 then
        let thread_rng : PyRand := ⟨mkStream (self.seed + pyHash node)⟩
        let (rows, st') := generate_batch_fast env 0 n thread_rng st
        some (aset gen node rows, st', mainRng)
      else none

/-- `generate_parallel(order, rows_per_table)` (lines 727-767): fold the
per-table step over the generation order.  Returns the per-node row
lists with the shared state and orchestrator tape, or `none` when some
table takes the unmodelled threaded branch. -/
def generate_parallel (self : GenSelf) (mkStream : Int → List Nat)
    (pyHash : String → Int) (completion : List (List Row) → List (List Row))
    (order : List String) (rows_per_table : List (String × Int))
    (st₀ : SharedState) (mainRng₀ : PyRand) :
    Option (List (String × List Row) × SharedState × PyRand) :=
  order.foldl (genParStep self mkStream pyHash completion rows_per_table)
    (some ([], st₀, mainRng₀))

/-! ## Embedding of `resolve_fks_batch`
(`generate_synthetic_data.py` lines 774-1380)

The embedding covers the code paths for tables without composite logical
FKs and without the multi-column-PK hybrid Cartesian pre-allocation
(lines 872-1138); outside that domain it returns `none` and no theorem
below appeals to it. -/

/-- Order-preserving first-occurrence deduplication; the model of
Python's `list(set(xs))` (whose order is unspecified). -/
def dedupFirst {α : Type} [DecidableEq α] (l : List α) : List α :=
  l.foldl (fun acc x => if x ∈ acc then acc else acc ++ [x]) []

/-- The non-null parent values of a referenced column
(`[r.get(parent_col) for r in parent_rows if r and r.get(parent_col) is
not None]`). -/
def parentValsOf (parent_rows : List Row) (parent_col : String) : List Value :=
  (parent_rows.filter (fun r => r ≠ [] ∧ Row.get r parent_col ≠ Value.vNull)).map
    (fun r => Row.get r parent_col)

/-- The parent-cache construction of `resolve_fks_batch`
(lines 789-825): unconditional caches keyed by child column (later FKs
overwrite), conditional caches keyed by constraint name, and the
union-of-conditional fallback for columns without an unconditional FK. -/
def buildParentCaches (self : GenSelf) (node : String)
    (generated_rows : List (String × List Row)) :
    List (String × List Value) × List (String × List Value) :=
  let nodeFks := self.fks.filter
    (fun fk => fk.table_schema ++ "." ++ fk.table_name = node)
  let step := nodeFks.foldl
    (fun (acc : List (String × List Value) × List (String × List Value)) fk =>
      let parent_table := fk.referenced_table_schema ++ "." ++ fk.referenced_table_name
      match alookup generated_rows parent_table with
      | some parent_rows =>
        let parent_vals := parentValsOf parent_rows fk.referenced_column_name
        match fk.condition with
        | some _ => (acc.1, aset acc.2 fk.constraint_name parent_vals)
        | none => (aset acc.1 fk.column_name parent_vals, acc.2)
      | none => acc)
    ([], [])
  let parent_caches := step.1
  let conditional_fk_caches := step.2
  let condCols := dedupFirst ((nodeFks.filter (fun fk => fk.condition.isSome)).map
    (fun fk => fk.column_name))
  let parent_caches := condCols.foldl
    (fun pc fk_col =>
      if (alookup pc fk_col).isSome then pc
      else
        let fk_list := nodeFks.filter
          (fun fk => fk.condition.isSome ∧ fk.column_name = fk_col)
        let all_parent_vals := fk_list.foldl
          (fun a fk => a ++ (alookup conditional_fk_caches fk.constraint_name).getD [])
          []
        if all_parent_vals ≠ [] then aset pc fk_col (dedupFirst all_parent_vals)
        else pc)
    parent_caches
  (parent_caches, conditional_fk_caches)

/-- The conditional-FK resolution for one column of one row
(lines 1326-1340): scan the column's conditional FKs in configuration
order and apply the first whose predicate holds *and* whose parent cache
is non-empty.  Returns the updated row, whether some FK fired, and the
tape. -/
def applyConditionalFks (conditional_fk_caches : List (String × List Value))
    (fk_col : String) (row : Row) (rng : PyRand) :
    List FKMeta → Row × Bool × PyRand
  | [] => (row, false, rng)
  | fk :: rest =>
    match fk.condition with
    | some cond =>
      if evaluate_fk_condition cond row then
        let parent_vals := (alookup conditional_fk_caches fk.constraint_name).getD []
        if parent_vals ≠ [] then
          let (v, rng') := rng.choice parent_vals
          (row.set fk_col v, true, rng')
        else applyConditionalFks conditional_fk_caches fk_col row rng rest
      else applyConditionalFks conditional_fk_caches fk_col row rng rest
    | none => applyConditionalFks conditional_fk_caches fk_col row rng rest

/-- The inputs shared by every row of the per-row loop of
`resolve_fks_batch`. -/
structure ResolveCtx where
  node : String
  tmeta : TableMeta
  cfg : Option TableCfg
  nodeFks : List FKMeta
  condCols : List String
  parent_caches : List (String × List Value)
  conditional_fk_caches : List (String × List Value)
  pk_fk_columns : List String
  pre_allocated_pk : Option (List Value)
deriving Repr

/-- `cfg and any(sf["column"] == fk_col for sf in cfg.get("static_fks",
[]))`. -/
def isStaticCol (cfg : Option TableCfg) (c : String) : Bool :=
  match cfg with
  | some cfg => cfg.static_fks.any (fun sf => sf.column = c)
  | none => false

/-- The first conditional FK of a column's configuration-ordered list
that actually fires: predicate true *and* a non-empty parent cache. -/
def firstFiringFk (caches : List (String × List Value)) (row : Row) :
    List FKMeta → Option FKMeta
  | [] => none
  | fk :: rest =>
    match fk.condition with
    | some cond =>
      if evaluate_fk_condition cond row ∧
          (alookup caches fk.constraint_name).getD [] ≠ [] then some fk
      else firstFiringFk caches row rest
    | none => firstFiringFk caches row rest

/-- One iteration of the unconditional-FK loop of a row (lines 1343-1372
on the modelled domain): skip conditional FKs, columns already assigned
by a conditional FK, and static columns; NOT-NULL FK columns receive the
pre-allocated PK value or a random cached parent value. -/
def uncondStep (ctx : ResolveCtx) (assigned : List String) (row_idx : Nat)
    (acc : Row × PyRand) (fk : FKMeta) : Row × PyRand :=
  let (r, rng) := acc
  if fk.condition.isSome then (r, rng)
  else
    let fk_col := fk.column_name
    if assigned.contains fk_col then (r, rng)
    else if isStaticCol ctx.cfg fk_col then (r, rng)
    else
      match ctx.tmeta.columns.find? (fun c => c.name = fk_col) with
      | some cm =>
        if cm.is_nullable = "NO" then
          match ctx.pre_allocated_pk with
          | some pre =>
            if pre ≠ [] ∧ ctx.pk_fk_columns.contains fk_col then
              (r.set fk_col ((pre.get? row_idx).getD .vNull), rng)
            else
              let parent_vals := (alookup ctx.parent_caches fk_col).getD []
              if parent_vals ≠ [] then
                let (v, rng') := rng.choice parent_vals
                (r.set fk_col v, rng')
              else (r.set fk_col .vNull, rng)
          | none =>
            let parent_vals := (alookup ctx.parent_caches fk_col).getD []
            if parent_vals ≠ [] then
              let (v, rng') := rng.choice parent_vals
              (r.set fk_col v, rng')
            else (r.set fk_col .vNull, rng)
        else (r, rng)
      | none => (r, rng)

def applyUnconditionalFks (ctx : ResolveCtx) (assigned : List String)
    (row_idx : Nat) (r₁ : Row) (rng₁ : PyRand) : Row × PyRand :=
  ctx.nodeFks.foldl (uncondStep ctx assigned row_idx) (r₁, rng₁)

/-- One column of the conditional-FK phase of a row (lines 1317-1340 on
the modelled domain): skip static columns, otherwise run the column's
configuration-ordered conditional FKs and record the column as assigned
when one fired. -/
def condColStep (ctx : ResolveCtx) (acc : Row × List String × PyRand)
    (fk_col : String) : Row × List String × PyRand :=
  let (r, assigned, rng) := acc
  if isStaticCol ctx.cfg fk_col then (r, assigned, rng)
  else
    let fk_list := ctx.nodeFks.filter
      (fun fk => fk.condition.isSome ∧ fk.column_name = fk_col)
    let (r', fired, rng') :=
      applyConditionalFks ctx.conditional_fk_caches fk_col r rng fk_list
    (r', if fired then assigned ++ [fk_col] else assigned, rng')

/-- The per-row body of `resolve_fks_batch` on the modelled domain
(lines 1208-1374, with the composite-FK loop vacuous): copy the row,
resolve conditional FKs per column, then the remaining unconditional
FKs. -/
def resolveRow (ctx : ResolveCtx) (row_idx : Nat) (row : Row) (rng : PyRand) :
    Row × PyRand :=
  let condStep := ctx.condCols.foldl (condColStep ctx) (row, [], rng)
  let (r₁, assigned, rng₁) := condStep
  applyUnconditionalFks ctx assigned row_idx r₁ rng₁

/-- One iteration of the per-row loop of `resolve_fks_batch`
(lines 1208-1374): empty rows are skipped (`if not row: continue`),
non-empty rows are resolved and appended. -/
def resolveLoopStep (ctx : ResolveCtx) (acc : List Row × PyRand)
    (p : Nat × Row) : List Row × PyRand :=
  let (resolved, rng) := acc
  if p.2 = ([] : List (String × Value)) then (resolved, rng)
  else
    let (r, rng') := resolveRow ctx p.1 p.2 rng
    (resolved ++ [r], rng')

/-- `FastSyntheticGenerator.resolve_fks_batch(node, tmeta, cfg)` on the
modelled domain.  Returns `none` for tables with composite logical FKs or
with the multi-column-PK hybrid pre-allocation (lines 872-1138), which
are outside the embedding; otherwise the resolved rows, the
single-PK-truncation warning flag, and the orchestrator tape. -/
def resolve_fks_batch (self : GenSelf) (node : String) (tmeta : TableMeta)
    (cfg : Option TableCfg) (generated_rows : List (String × List Row))
    (mainRng : PyRand) : Option (List Row × Bool × PyRand) :=
  let rows := (alookup generated_rows node).getD []
  if rows = [] then some (rows, false, mainRng)
  else
    let all_fk_columns := (alookup self.fk_columns node).getD []
    let pk_fk_columns := tmeta.pk_columns.filter (fun c => all_fk_columns.contains c)
    let composite_cfgs := self.logical_composite_fks.filter
      (fun comp => comp.table_schema ++ "." ++ comp.table_name = node)
    if composite_cfgs ≠ [] then none
    else if pk_fk_columns ≠ [] ∧ tmeta.pk_columns.length > 1 then none
    else
      let caches := buildParentCaches self node generated_rows
      let parent_caches := caches.1
      let conditional_fk_caches := caches.2
      let nodeFks := self.fks.filter
        (fun fk => fk.table_schema ++ "." ++ fk.table_name = node)
      let condCols := dedupFirst
        ((nodeFks.filter (fun fk => fk.condition.isSome)).map (fun fk => fk.column_name))
      -- single-column PK that is also an FK (lines 858-871)
      let preStep : List Row × Option (List Value) × Bool × PyRand :=
        match tmeta.pk_columns with
        | [pk_col] =>
          if pk_fk_columns.contains pk_col then
            let parent_vals := (alookup parent_caches pk_col).getD []
            let unique_parent_vals := dedupFirst parent_vals
            let warn := unique_parent_vals.length < rows.length
            let rows' := if warn then rows.take unique_parent_vals.length else rows
            let (shuffled, rng') := pyShuffleL mainRng unique_parent_vals
            (rows', some (shuffled.take rows'.length), warn, rng')
          else (rows, none, false, mainRng)
        | _ => (rows, none, false, mainRng)
      let (rows, pre_allocated_pk, warn, rng) := preStep
      let ctx : ResolveCtx :=
        { node := node, tmeta := tmeta, cfg := cfg, nodeFks := nodeFks
          condCols := condCols, parent_caches := parent_caches
          conditional_fk_caches := conditional_fk_caches
          pk_fk_columns := pk_fk_columns, pre_allocated_pk := pre_allocated_pk }
      let loop : List Row × PyRand := (rows.enum).foldl
        (resolveLoopStep ctx) ([], rng)
      some (loop.1, warn, loop.2)

/-! ## Row counts and SQL emission (`generate`, `_generate_deletes`;
lines 1382-1472) -/

/-- `cfg.get("rows") or self.default_rows_per_table` (lines 250, 1429):
Python `or` falls back to the default when `rows` is missing *or* falsy —
and the integer `0` is falsy. -/
def pyOrRows (rows : Option Int) (d : Int) : Int :=
  match rows with
  | none => d
  | some r => if r = 0 then d else r

/-- `rows_per_table` as computed by `generate` (lines 1426-1430). -/
def rowsPerTable (self : GenSelf) (order : List String) : List (String × Int) :=
  order.map (fun node =>
    (node,
      pyOrRows ((alookup self.table_map node).bind (fun c => c.rows))
        self.default_rows_per_table))

/-- Structured view of an emitted SQL line (the textual emitter is out of
core scope; statements are kept as data). -/
inductive SqlStmt where
  | commentIns (node : String)
  | insertRow (schema tname : String) (row : Row)
  | setLastInsert (node : String)
  | commentDel (node : String)
  | deleteByPk (schema tname pk : String) (v : Value)
  | deleteByCols (schema tname : String) (clauses : List (String × Value))
deriving DecidableEq, Repr

/-- `isinstance(v, str) and v.startswith("@")`. -/
def isAtVar : Value → Bool
  | .vStr s => s.startsWith "@"
  | _ => false

/-- The DELETE statements one row contributes (`_generate_deletes` body,
lines 1391-1408): prefer the single-column primary key, else all non-null
non-`@` columns; a row yielding no clause emits nothing. -/
def deleteForRow (tmeta : TableMeta) (row : Row) : List SqlStmt :=
  if row = ([] : List (String × Value)) then []
  else
    let fallback :=
      let clauses := (tmeta.columns.filter
        (fun col => Row.get row col.name ≠ .vNull ∧
          ¬ isAtVar (Row.get row col.name))).map
        (fun col => (col.name, Row.get row col.name))
      if clauses ≠ [] then [SqlStmt.deleteByCols tmeta.schema tmeta.tname clauses]
      else []
    match tmeta.pk_columns with
    | [pk] =>
      let pkval := Row.get row pk
      if pkval ≠ .vNull ∧ ¬ isAtVar pkval then
        [SqlStmt.deleteByPk tmeta.schema tmeta.tname pk pkval]
      else fallback
    | _ => fallback

/-- The DELETE lines one table contributes in `_generate_deletes`: the
comment, then each row's statements in the forward order of the row list
(a node with no metadata is skipped — `continue`, line 1388). -/
def deleteStmtsFor (self : GenSelf) (generated_rows : List (String × List Row))
    (node : String) : List SqlStmt :=
  match alookup self.metadata node with
  | none => []
  | some tmeta =>
    SqlStmt.commentDel node ::
      ((alookup generated_rows node).getD []).foldl
        (fun acc row => acc ++ deleteForRow tmeta row) []

/-- `FastSyntheticGenerator._generate_deletes(order)` (lines 1382-1408):
tables in reversed topological order, a comment per table, then each
row's DELETE in the *forward* order of the row list. -/
def generate_deletes (self : GenSelf) (order : List String)
    (generated_rows : List (String × List Row)) : List SqlStmt :=
  order.reverse.foldl
    (fun acc node => acc ++ deleteStmtsFor self generated_rows node)
    []

/-- The sequence of inserted rows, tagged by node, as emitted by
`generate` (lines 1444-1467): tables in topological order; within a
table, rows in list order (both the interleaved single-row path and the
batched path preserve row order; statement batching does not reorder
rows).  Tables whose resolved row list is empty emit nothing. -/
def insertRowSeq (order : List String)
    (generated_rows : List (String × List Row)) : List (String × Row) :=
  order.foldl
    (fun acc node =>
      let rows := (alookup generated_rows node).getD []
      acc ++ rows.map (fun r => (node, r)))
    []

/-! ## Embedding of `ConstraintResolver` (`constraint_resolver.py`) -/

/-- Same-name-set test on constraint groups
(`frozenset(names) == frozenset(names)`). -/
def sameNameSet (g₁ g₂ : List UniqueConstraint) : Bool :=
  let n₁ := g₁.map (fun uc => uc.constraint_name)
  let n₂ := g₂.map (fun uc => uc.constraint_name)
  n₁.all (fun n => n₂.contains n) ∧ n₂.all (fun n => n₁.contains n)

/-- `set(uc1.columns) & set(uc2.columns)` is non-empty. -/
def ucOverlap (uc₁ uc₂ : UniqueConstraint) : Bool :=
  uc₁.columns.any (fun c => uc₂.columns.contains c)

/-- The group built for one constraint (by list position): the constraint
together with every other-position constraint that shares a column with
it (`group = set([uc1]) ∪ {uc2 : i ≠ j, overlap}`, lines 77-82). -/
def overlapGroupAt (cs : List UniqueConstraint) (p : Nat × UniqueConstraint) :
    List UniqueConstraint :=
  dedupFirst (p.2 ::
    ((cs.enum.filter (fun q => q.1 ≠ p.1 ∧ ucOverlap p.2 q.2)).map
      (fun q => q.2)))

/-- `ConstraintResolver.find_overlapping_constraints` (lines 62-96): for
each constraint, the *set* of it together with all directly overlapping
constraints; groups of size ≥ 2 are kept and deduplicated by name set.
(Python's sets are modelled as first-occurrence-ordered duplicate-free
lists.) -/
def find_overlapping_constraints (cs : List UniqueConstraint) :
    List (List UniqueConstraint) :=
  if cs.length < 2 then []
  else
    let overlapping_groups := (cs.enum).foldl
      (fun (acc : List (List UniqueConstraint)) (p : Nat × UniqueConstraint) =>
        let group := overlapGroupAt cs p
        if group.length > 1 then acc ++ [group] else acc)
      []
    overlapping_groups.foldl
      (fun unique_groups group =>
        if unique_groups.any (fun g => sameNameSet g group) then unique_groups
        else unique_groups ++ [group])
      []

/-- A combination-count estimate: a finite integer or `float('inf')`. -/
inductive Combo where
  | fin (n : Int) : Combo
  | inf : Combo
deriving DecidableEq, Repr

/-- The `≤` Python's sort applies to combination counts. -/
def comboLe : Combo → Combo → Bool
  | .fin a, .fin b => a ≤ b
  | .fin _, .inf => true
  | .inf, .fin _ => false
  | .inf, .inf => true

/-- Strict order on combination counts. -/
def comboLt (a b : Combo) : Bool := ¬ comboLe b a

/-- The per-constraint combination estimate of
`select_tightest_constraint` (lines 161-199): product over the columns of
the parent's distinct-value count (FK columns), `len(values)`, or
`(max − min + 1)`; `inf` (with early exit) when a parent is not yet
generated or a non-FK column has no `values`/`min`. -/
def computeCombo (fk_map : List (String × FKMeta))
    (populate_config : List (String × ColConfig))
    (generated_rows : List (String × List Row)) : Int → List String → Combo
  | acc, [] => .fin acc
  | acc, c :: rest =>
    match alookup fk_map c with
    | some fk =>
      let parent_node := fk.referenced_table_schema ++ "." ++ fk.referenced_table_name
      match alookup generated_rows parent_node with
      | some parent_rows =>
        let unique_vals :=
          (dedupFirst (parentValsOf parent_rows fk.referenced_column_name)).length
        computeCombo fk_map populate_config generated_rows (acc * unique_vals) rest
      | none => .inf
    | none =>
      match alookup populate_config c with
      | some cc =>
        match cc.values with
        | some vs =>
          computeCombo fk_map populate_config generated_rows (acc * vs.length) rest
        | none =>
          match cc.minV with
          | some mn =>
            computeCombo fk_map populate_config generated_rows
              (acc * (cc.maxV.getD 100 - mn + 1)) rest
          | none => .inf
      | none => .inf

/-- `ConstraintResolver.select_tightest_constraint` (lines 138-218): one
constraint is returned as-is with no estimate; otherwise estimates are
computed, the list is sorted by estimate with Python's *stable* sort
(modelled by insertion sort, which computes the same result as any stable
sort), and the first element is returned. -/
def select_tightest_constraint (fk_map : List (String × FKMeta))
    (populate_config : List (String × ColConfig))
    (generated_rows : List (String × List Row))
    (cs : List UniqueConstraint) : Option (UniqueConstraint × Option Combo) :=
  match cs with
  | [] => none
  | [c] => some (c, none)
  | _ =>
    let combos := cs.map (fun uc =>
      (uc, computeCombo fk_map populate_config generated_rows 1 uc.columns))
    let sorted := combos.insertionSort
      (fun a b => comboLe a.2 b.2 = true)
    sorted.head?.map (fun p => (p.1, some p.2))

/-! ## Embedding of the modular `ValueGenerator`
(`value_generator.py`, with `ThreadLocalCounter` from
`generate_synthetic_data_patterns.py`) -/

/-- `ThreadLocalCounter` state for a single thread (the embedding is the
single-threaded semantics: `local` holds that thread's fields). -/
structure TLC where
  global_counter : Nat := 0
  batch_size : Nat := 100
  batch_start : Option Nat := none
  batch_end : Nat := 0
  current : Nat := 0
deriving DecidableEq, Repr

/-- `ThreadLocalCounter._allocate_batch`. -/
def TLC.allocate (t : TLC) : TLC :=
  { t with
    batch_start := some t.global_counter
    batch_end := t.global_counter + t.batch_size
    current := t.global_counter
    global_counter := t.global_counter + t.batch_size }

/-- `ThreadLocalCounter.next`. -/
def TLC.next (t : TLC) : Nat × TLC :=
  let t := if t.batch_start = none then t.allocate else t
  let value := t.current
  let t := { t with current := t.current + 1 }
  let t := if t.batch_end ≤ t.current then t.allocate else t
  (value, t)

/-- The value `ThreadLocalCounter.next` will hand out next. -/
def TLC.peek (t : TLC) : Nat :=
  match t.batch_start with
  | none => t.global_counter
  | some _ => t.current

/-- The states a single-threaded `ThreadLocalCounter` can reach. -/
def TLC.wf (t : TLC) : Prop :=
  0 < t.batch_size ∧
    (t.batch_start.isSome →
      t.current < t.batch_end ∧ t.batch_end = t.global_counter)

/-- Correspondence between the modular thread-local counters and the
monolith's plain locked counters: every key's counter is reachable and
about to hand out the monolith's next value. -/
def countersSim (vgc : List (String × TLC)) (mc : List (String × Nat)) : Prop :=
  ∀ k, ((alookup vgc k).getD {}).wf ∧
    ((alookup vgc k).getD {}).peek = (alookup mc k).getD 0

/-- The modular generator's shared state (`ValueGenerator.__init__`):
global pools and `ThreadLocalCounter`s. -/
structure VGState where
  global_unique_value_pools : List (String × PoolData) := []
  composite_unique_counters : List (String × TLC) := []
deriving DecidableEq, Repr

/-- Update one counter of the modular state. -/
def VGState.setCounter (st : VGState) (k : String) (v : TLC) : VGState :=
  { st with composite_unique_counters := aset st.composite_unique_counters k v }

/-- Update one pool of the modular state. -/
def VGState.setPool (st : VGState) (k : String) (v : PoolData) : VGState :=
  { st with global_unique_value_pools := aset st.global_unique_value_pools k v }

/-- `discriminator_cols` (value_generator lines 136-141): the parsed
discriminator column of every conditional FK targeting the node. -/
def discriminatorCols (fks : List FKMeta) (node : String) : List String :=
  (fks.filter (fun fk =>
    fk.table_schema ++ "." ++ fk.table_name = node ∧ fk.condition.isSome)).filterMap
    (fun fk => fk.condition.map (fun c => c.column))

/-- `cols_needing_sequential` per the modular classifier
(value_generator lines 143-170): like the monolithic one, but
discriminator columns of `enum` type count as controlled. -/
def vgColsNeedingSequential (tmeta : TableMeta) (composite : List UniqueConstraint)
    (populate_config : List (String × ColConfig)) (fk_cols : List String)
    (disc_cols : List String) : List String :=
  composite.foldl (fun acc uc =>
    let isCtrl := fun c =>
      (isControlledCol populate_config c ||
        (disc_cols.contains c &&
          match tmeta.columns.find? (fun cm => cm.name = c) with
          | some cm => decide (strToLower cm.data_type = "enum")
          | none => false)) ||
      fk_cols.contains c || tmeta.pk_columns.contains c
    let controlled := uc.columns.filter isCtrl
    let uncontrolled := uc.columns.filter (fun c => ¬ isCtrl c)
    if uncontrolled ≠ [] ∧ controlled ≠ [] then acc ++ uncontrolled else acc) []

/-- The modular batch classification
(`classify_columns_for_generation` + the pool scan of `generate_batch`,
value_generator lines 113-173 and 203-212). -/
structure VGPre where
  single_unique_cols : List String
  composite_ucs : List UniqueConstraint
  all_unique_cols : List String
  pools_cols : List String
  seq_cols : List String
  disc_cols : List String
deriving Repr

/-- Classification for `ValueGenerator.generate_batch`. -/
def vgPre (env : GenEnv) (fks : List FKMeta) (st : VGState) : VGPre :=
  let single := singleUniqueCols env.unique_constraints
  let comp := compositeUniqueConstraints env.unique_constraints
  let disc := discriminatorCols fks env.node
  { single_unique_cols := single
    composite_ucs := comp
    all_unique_cols := single ++ comp.foldl (fun a uc => a ++ uc.columns) []
    pools_cols := single.filter (fun c =>
      match alookup env.populate_config c with
      | some cc =>
        ¬ env.tmeta.pk_columns.contains c ∧ (cc.minV.isSome || cc.values.isSome) ∧
          (alookup st.global_unique_value_pools (env.node ++ "." ++ c)).isSome
      | none => false)
    seq_cols := vgColsNeedingSequential env.tmeta comp env.populate_config
      env.fk_cols disc
    disc_cols := disc }

/-- `ValueGenerator._handle_sequential_generation`
(value_generator lines 331-370). -/
def vgHandleSequential (env : GenEnv) (cname : String) (col : ColumnMeta)
    (st : VGState) : Value × VGState :=
  let counter_key := env.node ++ "." ++ cname
  let tlc := (alookup st.composite_unique_counters counter_key).getD {}
  let (cval, tlc') := tlc.next
  let st' := st.setCounter counter_key tlc'
  (seqValueFor col cval, st')

/-- `ValueGenerator._handle_unique_pool` (value_generator lines 372-402). -/
def vgHandlePool (env : GenEnv) (cname : String) (st : VGState) : Value × VGState :=
  let pool_key := env.node ++ "." ++ cname
  match alookup st.global_unique_value_pools pool_key with
  | some pd =>
    if pd.cursor < pd.size then
      let st' := st.setPool pool_key { pd with cursor := pd.cursor + 1 }
      (((pd.pool.get? pd.cursor).getD .vNull), st')
    else (.vNull, st)
  | none => (.vNull, st)

/-- `ValueGenerator._generate_default_value`
(value_generator lines 404-488; textually the default rules of the
monolithic generator). -/
def vgDefaultValue (pre : VGPre) (batch_idx : Nat) (cname : String)
    (col : ColumnMeta) (rng : PyRand) : Value × PyRand :=
  defaultValueFor pre.single_unique_cols batch_idx cname col rng

/-- The per-column body of `ValueGenerator._generate_single_row`
(value_generator lines 267-327). -/
def vgProcessColumn (env : GenEnv) (pre : VGPre) (batch_idx : Nat)
    (col : ColumnMeta) (row : Row) (st : VGState) (rng : PyRand) :
    Row × VGState × PyRand :=
  let cname := col.name
  -- auto-increment PKs stay null (line 271; *no* forced-explicit check)
  if env.tmeta.pk_columns.contains cname ∧ env.tmeta.auto_increment then
    (row.set cname .vNull, st, rng)
  else
    match staticHitFor env.cfg cname with
    | some sf =>
      let key := sf.static_schema ++ "." ++ sf.static_table ++ "." ++ sf.static_column
      let pool := (alookup env.static_samples key).getD []
      let (v, rng') := rand_choice rng pool
      (row.set cname v, st, rng')
    | none =>
      -- FK columns stay null unless they are discriminators (line 290)
      if env.fk_cols.contains cname ∧ ¬ pre.disc_cols.contains cname then
        (row.set cname .vNull, st, rng)
      else if pre.seq_cols.contains cname then
        let (v, st') := vgHandleSequential env cname col st
        (row.set cname v, st', rng)
      else if pre.pools_cols.contains cname then
        let (v, st') := vgHandlePool env cname st
        (row.set cname v, st', rng)
      else
        match alookup env.populate_config cname with
        | some cc =>
          if cc.values.isSome || cc.minV.isSome then
            let (base, rng') := generate_value_with_config rng col cc
            if pre.single_unique_cols.contains cname ∧
                isStrType (strToLower col.data_type) ∧ base ≠ .vNull then
              (row.set cname (uniqueSuffix base col.char_max_length batch_idx),
                st, rng')
            else (row.set cname base, st, rng')
          else
            let (v, rng') := vgDefaultValue pre batch_idx cname col rng
            (row.set cname v, st, rng')
        | none =>
          let (v, rng') := vgDefaultValue pre batch_idx cname col rng
          (row.set cname v, st, rng')

/-- `ValueGenerator._generate_single_row` (value_generator lines
234-329). -/
def vgGenRow (env : GenEnv) (pre : VGPre) (batch_idx : Nat) (st : VGState)
    (rng : PyRand) : Row × VGState × PyRand :=
  env.tmeta.columns.foldl
    (fun (acc : Row × VGState × PyRand) col =>
      vgProcessColumn env pre batch_idx col acc.1 acc.2.1 acc.2.2)
    (([] : List (String × Value)), st, rng)

/-- One iteration of the modular batch loop: generate, validate against
the *composite* constraints only, keep when valid
(value_generator lines 216-230). -/
def vgBatchStep (env : GenEnv) (pre : VGPre)
    (acc : List Row × Trackers × VGState × PyRand) (batch_idx : Nat) :
    List Row × Trackers × VGState × PyRand :=
  let (rows, trk, st, rng) := acc
  let (row, st', rng') := vgGenRow env pre batch_idx st rng
  let (ok, trk') := validateRow trk row pre.composite_ucs
  (if ok then rows ++ [row] else rows, trk', st', rng')

/-- `ValueGenerator.generate_batch` (value_generator lines 175-232):
the modular row generation, validating only *composite* constraints. -/
def vg_generate_batch (env : GenEnv) (fks : List FKMeta)
    (start_idx end_idx : Nat) (rng : PyRand) (st : VGState) :
    List Row × VGState :=
  let pre := vgPre env fks st
  let res := ((List.range (end_idx - start_idx)).map (start_idx + ·)).foldl
    (vgBatchStep env pre)
    ([], initTrackers pre.composite_ucs, st, rng)
  (res.1, res.2.2.1)

/-! ## Concrete instances used by the claim theorems -/

/-- C3 instance: a varchar column controlled by a `min`/`max` populate
entry. -/
def c3dn : ColumnMeta :=
  { name := "DN", data_type := "varchar", is_nullable := "NO",
    char_max_length := some 50 }

/-- C3 instance: an enum column (`enum('WD','H','MC')`) that sits
uncontrolled in a composite unique index. -/
def c3pt : ColumnMeta :=
  { name := "PT", data_type := "enum", is_nullable := "NO",
    column_type := "enum(\x27WD\x27,\x27H\x27,\x27MC\x27)" }

/-- C3 instance: the table `db.D(DN, PT)` with `UNIQUE(DN, PT)`. -/
def c3tmeta : TableMeta :=
  { schema := "db", tname := "D", columns := [c3dn, c3pt], pk_columns := [],
    auto_increment := false }

/-- C3 instance: generation environment where `DN` is controlled
(`min`/`max`) and `PT` is uncontrolled, non-FK, non-PK — so `PT` falls in
`cols_needing_sequential`. -/
def c3env : GenEnv :=
  { node := "db.D", tmeta := c3tmeta
    cfg := some { schema := "db", table := "D", populate_columns_present := true }
    populate_config := [("DN", { minV := some 1, maxV := some 100000 })]
    unique_constraints := [⟨"uq_dn_pt", ["DN", "PT"]⟩] }

/-- C4 instance: a one-column table. -/
def c4tmeta : TableMeta :=
  { schema := "db", tname := "T",
    columns := [{ name := "c", data_type := "int", is_nullable := "NO" }],
    pk_columns := [], auto_increment := false }

/-- C4 instance: orchestrator state whose only table is configured with
`rows: 0`. -/
def c4self : GenSelf :=
  { metadata := [("db.T", c4tmeta)]
    table_map := [("db.T", { schema := "db", table := "T", rows := some 0 })]
    default_rows_per_table := 100 }

/-- C4 instance: the generated rows of the `rows: 0` table after
`generate_parallel` (empty tape, trivial hash — the table takes the
single-batch path). -/
def c4rows : List Row :=
  (alookup
    ((generate_parallel c4self (fun _ => []) (fun _ => 0) id ["db.T"]
      (rowsPerTable c4self ["db.T"]) {} ⟨[]⟩).getD ([], {}, ⟨[]⟩)).1
    "db.T").getD []

/-- The first minimum (by combination estimate) of a list — what the head
of Python's stable sort is. -/
def firstMinCombo : List (UniqueConstraint × Combo) →
    Option (UniqueConstraint × Combo)
  | [] => none
  | x :: rest =>
    match firstMinCombo rest with
    | none => some x
    | some m => if comboLe x.2 m.2 then some x else some m

/-- C9 instance: three composite uniques forming an overlap *chain*
(`U1`-`U2` and `U2`-`U3` share a column, `U1`-`U3` do not). -/
def c9u1 : UniqueConstraint := ⟨"U1", ["a", "b"]⟩

/-- C9 instance, middle link of the chain. -/
def c9u2 : UniqueConstraint := ⟨"U2", ["b", "c"]⟩

/-- C9 instance, last link of the chain. -/
def c9u3 : UniqueConstraint := ⟨"U3", ["c", "d"]⟩

/-- C8 instance: populate-columns config giving every column an explicit
two-value list. -/
def c8pc : List (String × ColConfig) :=
  [("p", { values := some [.vInt 0, .vInt 1] }),
   ("q", { values := some [.vInt 0, .vInt 1] }),
   ("r", { values := some [.vInt 0, .vInt 1] })]

/-- C8 instance: the constraint listed first, with the lexicographically
*larger* index name. -/
def c8z : UniqueConstraint := ⟨"Z", ["p", "q"]⟩

/-- C8 instance: the constraint listed second, with the smaller index
name and the same combination estimate. -/
def c8a : UniqueConstraint := ⟨"A", ["p", "r"]⟩

/-- C5 instance: a table with single integer primary key `id`. -/
def c5tmeta : TableMeta :=
  { schema := "db", tname := "T",
    columns := [{ name := "id", data_type := "int", is_nullable := "NO" }],
    pk_columns := ["id"], auto_increment := false }

/-- C5 instance: first inserted row. -/
def c5r1 : Row := [("id", Value.vInt 1)]

/-- C5 instance: second inserted row. -/
def c5r2 : Row := [("id", Value.vInt 2)]

/-- C5 instance: orchestrator state with a single table. -/
def c5self : GenSelf := { metadata := [("db.T", c5tmeta)] }

/-- C5 instance: the generated rows. -/
def c5gen : List (String × List Row) := [("db.T", [c5r1, c5r2])]

/-- C2 instance: conditional FK `F1` on column `ref` with predicate
`kind = 'a'`, referencing parent `P1`. -/
def c2fk1 : FKMeta :=
  { constraint_name := "F1", table_schema := "db", table_name := "D",
    column_name := "ref", referenced_table_schema := "db",
    referenced_table_name := "P1", referenced_column_name := "id",
    condition := some ⟨"kind", "a"⟩ }

/-- C2 instance: conditional FK `F2`, same column and predicate,
referencing parent `P2`. -/
def c2fk2 : FKMeta :=
  { constraint_name := "F2", table_schema := "db", table_name := "D",
    column_name := "ref", referenced_table_schema := "db",
    referenced_table_name := "P2", referenced_column_name := "id",
    condition := some ⟨"kind", "a"⟩ }

/-- C2 instance: conditional caches — `F1`'s parent produced no values,
`F2`'s produced one. -/
def c2caches : List (String × List Value) := [("F1", []), ("F2", [.vInt 9])]

/-- C2 instance: a child row whose discriminator satisfies both
predicates. -/
def c2row : Row := [("kind", Value.vStr "a")]

/-- C1 instance: parent table `db.P(id int)`. -/
def c1ptmeta : TableMeta :=
  { schema := "db", tname := "P",
    columns := [{ name := "id", data_type := "int", is_nullable := "NO" }],
    pk_columns := [], auto_increment := false }

/-- C1 instance: child table `db.C(c int NOT NULL)` with `UNIQUE(c)`,
`c` an FK to `db.P.id`. -/
def c1ctmeta : TableMeta :=
  { schema := "db", tname := "C",
    columns := [{ name := "c", data_type := "int", is_nullable := "NO" }],
    pk_columns := [], auto_increment := false }

/-- C1 instance: the declared FK `db.C.c → db.P.id`. -/
def c1fk : FKMeta :=
  { constraint_name := "fk_c", table_schema := "db", table_name := "C",
    column_name := "c", referenced_table_schema := "db",
    referenced_table_name := "P", referenced_column_name := "id",
    is_logical := false, condition := none }

/-- C1 instance: orchestrator state — parent generates one row with
`id = 7` (explicit `values`), child requests two rows. -/
def c1self : GenSelf :=
  { metadata := [("db.P", c1ptmeta), ("db.C", c1ctmeta)]
    table_map :=
      [("db.P", { schema := "db", table := "P", rows := some 1,
                  populate_columns_present := true }),
       ("db.C", { schema := "db", table := "C", rows := some 2 })]
    fk_columns := [("db.C", ["c"])]
    populate_columns_config := [("db.P", [("id", { values := some [.vInt 7] })])]
    unique_constraints := [("db.C", [⟨"uq_c", ["c"]⟩])]
    fks := [c1fk] }

/-- C1 instance: the per-table rows produced by `generate_parallel`
(both tables take the modelled non-threaded branch). -/
def c1gen : List (String × List Row) :=
  ((generate_parallel c1self (fun _ => []) (fun _ => 0) id ["db.P", "db.C"]
    (rowsPerTable c1self ["db.P", "db.C"]) {} ⟨[]⟩).getD ([], {}, ⟨[]⟩)).1

/-- C1 instance: the child's rows after FK resolution. -/
def c1resolved : Option (List Row × Bool × PyRand) :=
  resolve_fks_batch c1self "db.C" c1ctmeta (alookup c1self.table_map "db.C")
    c1gen ⟨[]⟩

/-- The FKs whose child is `node`, in configuration order
(`resolve_fks_batch`'s repeated `self.fks` filter). -/
def nodeFksOf (self : GenSelf) (node : String) : List FKMeta :=
  self.fks.filter (fun fk => fk.table_schema ++ "." ++ fk.table_name = node)

/-- The parent-value cache of one child column as built by
`resolve_fks_batch` (`parent_caches.get(pk_col, [])`). -/
def parentCacheOf (self : GenSelf) (node : String)
    (generated_rows : List (String × List Row)) (c : String) : List Value :=
  (alookup (buildParentCaches self node generated_rows).1 c).getD []

/-- C6 witness instance: child `db.K(k int NOT NULL)` with `PRIMARY
KEY(k)` and an unconditional FK `k → db.P6.id`. -/
def c6ktmeta : TableMeta :=
  { schema := "db", tname := "K",
    columns := [{ name := "k", data_type := "int", is_nullable := "NO" }],
    pk_columns := ["k"], auto_increment := false }

/-- C6 witness instance: orchestrator state carrying the FK. -/
def c6wself : GenSelf :=
  { fk_columns := [("db.K", ["k"])]
    fks := [{ constraint_name := "fk_k", table_schema := "db",
              table_name := "K", column_name := "k",
              referenced_table_schema := "db", referenced_table_name := "P6",
              referenced_column_name := "id", is_logical := false,
              condition := none }] }

/-- C6 witness instance: parent rows with distinct values `1, 2`
(one duplicate) and three generated child rows. -/
def c6wrows : List (String × List Row) :=
  [("db.P6",
    [[("id", Value.vInt 1)], [("id", Value.vInt 2)], [("id", Value.vInt 1)]]),
   ("db.K",
    [[("k", Value.vNull)], [("k", Value.vNull)], [("k", Value.vNull)]])]

/-- C6 counterexample instance: child `db.M(m int NOT NULL, d varchar NOT
NULL)` with `PRIMARY KEY(m)` and a *conditional* FK `m → db.P7.id` on
`d = 'a'`. -/
def c6mtmeta : TableMeta :=
  { schema := "db", tname := "M",
    columns := [{ name := "m", data_type := "int", is_nullable := "NO" },
                { name := "d", data_type := "varchar", is_nullable := "NO" }],
    pk_columns := ["m"], auto_increment := false }

/-- C6 counterexample instance: orchestrator state — the PK column `m`
is an FK column, but only through a conditional FK. -/
def c6cself : GenSelf :=
  { fk_columns := [("db.M", ["m"])]
    fks := [{ constraint_name := "cfk_m", table_schema := "db",
              table_name := "M", column_name := "m",
              referenced_table_schema := "db", referenced_table_name := "P7",
              referenced_column_name := "id", is_logical := true,
              condition := some ⟨"d", "a"⟩ }] }

/-- C6 counterexample instance: two distinct parent values and two child
rows whose discriminator matches the condition. -/
def c6crows : List (String × List Row) :=
  [("db.P7", [[("id", Value.vInt 5)], [("id", Value.vInt 7)]]),
   ("db.M", [[("d", Value.vStr "a")], [("d", Value.vStr "a")]])]

/-- The rows kept by the single-column-PK-FK truncation of
`resolve_fks_batch` (lines 864-868). -/
def singlePkRows₂ (self : GenSelf) (node : String)
    (generated_rows : List (String × List Row)) (pk : String) : List Row :=
  let rows := (alookup generated_rows node).getD []
  let uniqueVals := dedupFirst (parentCacheOf self node generated_rows pk)
  if uniqueVals.length < rows.length then rows.take uniqueVals.length else rows

/-- The per-row context built by `resolve_fks_batch` on the
single-column-PK-FK path. -/
def singlePkCtx (self : GenSelf) (node : String) (tmeta : TableMeta)
    (cfg : Option TableCfg) (generated_rows : List (String × List Row))
    (mainRng : PyRand) (pk : String) : ResolveCtx :=
  { node := node, tmeta := tmeta, cfg := cfg, nodeFks := nodeFksOf self node
    condCols := dedupFirst
      (((nodeFksOf self node).filter (fun fk => fk.condition.isSome)).map
        (fun fk => fk.column_name))
    parent_caches := (buildParentCaches self node generated_rows).1
    conditional_fk_caches := (buildParentCaches self node generated_rows).2
    pk_fk_columns := [pk]
    pre_allocated_pk := some
      (((pyShuffleL mainRng
          (dedupFirst (parentCacheOf self node generated_rows pk))).1).take
        (singlePkRows₂ self node generated_rows pk).length) }

/-- The single-column-PK-that-is-an-FK path of `resolve_fks_batch`
(lines 858-871 feeding the per-row loop), spelled out for its
characterisation. -/
def resolveSinglePkPath (self : GenSelf) (node : String) (tmeta : TableMeta)
    (cfg : Option TableCfg) (generated_rows : List (String × List Row))
    (mainRng : PyRand) (pk : String) : List Row × Bool × PyRand :=
  let loop := ((singlePkRows₂ self node generated_rows pk).enum).foldl
    (resolveLoopStep (singlePkCtx self node tmeta cfg generated_rows mainRng pk))
    ([], (pyShuffleL mainRng
      (dedupFirst (parentCacheOf self node generated_rows pk))).2)
  (loop.1,
    decide ((dedupFirst (parentCacheOf self node generated_rows pk)).length <
      ((alookup generated_rows node).getD ([] : List Row)).length),
    loop.2)

/-- C7 instance: table `db.H(h int NOT NULL)`, one requested row — the
row's value is drawn from the thread tape seeded by
`seed + hash(node)`. -/
def c7tmeta : TableMeta :=
  { schema := "db", tname := "H",
    columns := [{ name := "h", data_type := "int", is_nullable := "NO" }],
    pk_columns := [], auto_increment := false }

/-- C7 instance: orchestrator state for the single table. -/
def c7self : GenSelf :=
  { metadata := [("db.H", c7tmeta)]
    table_map := [("db.H", { schema := "db", table := "H", rows := some 1 })] }

/-- C10 counterexample instance: `db.V(v int NULL)` — nullable,
unconstrained, unconfigured. -/
def c10env : GenEnv :=
  { node := "db.V",
    tmeta := ⟨"db", "V",
      [{ name := "v", data_type := "int", is_nullable := "YES" }],
      [], false⟩ }

/-- C10 witness instance: `db.W(w int NOT NULL)` — on the common domain
of the two generators. -/
def c10wenv : GenEnv :=
  { node := "db.W",
    tmeta := ⟨"db", "W",
      [{ name := "w", data_type := "int", is_nullable := "NO" }],
      [], false⟩ }

/-- The invariant carried through the batch loop: every accepted row's
fully-non-null tuple is tracked, and the accepted rows are
duplicate-free on every constraint. -/
def batchInv (ucs : List UniqueConstraint)
    (s : List Row × Trackers × SharedState × PyRand) : Prop :=
  (∀ uc ∈ ucs, ∀ r ∈ s.1, (tupleOf uc r).contains Value.vNull = false →
    tupleOf uc r ∈ trkD s.2.1 uc.constraint_name) ∧
  (∀ uc ∈ ucs, (s.1.map (tupleOf uc)).Pairwise
    (fun t₁ t₂ => t₁.contains Value.vNull = false → t₁ ≠ t₂))

/-! ## Helper lemmas -/

@[simp] theorem alookup_nil {β : Type} (k : String) :
    alookup ([] : List (String × β)) k = none := rfl

theorem alookup_cons {β : Type} (k₂ k : String) (v : β) (rest : List (String × β)) :
    alookup ((k₂, v) :: rest) k = if k₂ = k then some v else alookup rest k := rfl

/-- Looking up the freshly written key returns the new value. -/
theorem alookup_aset_self {β : Type} (m : List (String × β)) (k : String) (v : β) :
    alookup (aset m k v) k = some v := by
  induction m with
  | nil => simp [aset, alookup]
  | cons hd tl ih =>
      obtain ⟨k₂, w⟩ := hd
      by_cases h : k₂ = k
      · simp [aset, alookup, h]
      · simp [aset, alookup, h, ih]

/-- Writing one key leaves every other key unchanged. -/
theorem alookup_aset_other {β : Type} (m : List (String × β)) (k k₂ : String) (v : β)
    (h : k ≠ k₂) : alookup (aset m k v) k₂ = alookup m k₂ := by
  induction m with
  | nil => simp [aset, alookup, h]
  | cons hd tl ih =>
      obtain ⟨k₃, w⟩ := hd
      by_cases h₃ : k₃ = k
      · subst h₃
        simp [aset, alookup, h]
      · simp [aset, alookup, h₃, ih]

@[simp] theorem Row.get_set_self (r : Row) (c : String) (v : Value) :
    (r.set c v).get c = v := by
  simp [Row.get, Row.set, alookup_aset_self]

theorem Row.get_set_other (r : Row) (c c₂ : String) (v : Value) (h : c ≠ c₂) :
    (r.set c v).get c₂ = r.get c₂ := by
  simp [Row.get, Row.set, alookup_aset_other _ _ _ _ h]

/-- Extracting an element and the remainder is a permutation of the list. -/
theorem perm_getElem_cons_eraseIdx {α : Type} :
    ∀ (l : List α) (i : Nat) (h : i < l.length),
      List.Perm (l.get ⟨i, h⟩ :: l.eraseIdx i) l := by
  intro l
  induction l with
  | nil => intro i h; simp at h
  | cons a tl ih =>
    intro i h
    cases i with
    | zero => simp [List.eraseIdx]
    | succ j =>
      have hj : j < tl.length := by simpa using h
      have step : List.Perm (tl.get ⟨j, hj⟩ :: a :: tl.eraseIdx j)
          (a :: tl.get ⟨j, hj⟩ :: tl.eraseIdx j) := List.Perm.swap _ _ _
      have : List.Perm (a :: tl.get ⟨j, hj⟩ :: tl.eraseIdx j) (a :: tl) :=
        (ih j hj).cons a
      simpa [List.eraseIdx] using step.trans this

/-- With enough fuel the selection shuffle is a permutation of its
input. -/
theorem pyShuffleGo_perm {α : Type} :
    ∀ (fuel : Nat) (rng : PyRand) (l : List α), l.length ≤ fuel →
      (pyShuffleGo fuel rng l).1.Perm l := by
  intro fuel
  induction fuel with
  | zero =>
    intro rng l h
    match l with
    | [] => simp [pyShuffleGo]
    | a :: tl => simp at h
  | succ f ih =>
    intro rng l h
    match l with
    | [] => simp [pyShuffleGo]
    | a :: tl =>
      rw [pyShuffleGo]
      simp only
      set rng' := ((rng.next).2) with hrng'
      set i := (rng.next).1 % (a :: tl).length with hi
      have hilt : i < (a :: tl).length := Nat.mod_lt _ (by simp)
      have herase : ((a :: tl).eraseIdx i).length ≤ f := by
        have h₂ := List.length_eraseIdx_add_one hilt
        simp only [List.length_cons] at h₂ h
        omega
      have hrec := ih rng' ((a :: tl).eraseIdx i) herase
      have hget : ((a :: tl).get? i).getD a = (a :: tl).get ⟨i, hilt⟩ := by
        rw [List.get?_eq_get hilt]
        rfl
      rw [hget]
      have hperm : List.Perm (((a :: tl).get ⟨i, hilt⟩) :: (a :: tl).eraseIdx i) (a :: tl) :=
        perm_getElem_cons_eraseIdx (a :: tl) i hilt
      exact (hrec.cons _).trans hperm

/-- The selection shuffle is a permutation of its input. -/
theorem pyShuffleL_perm {α : Type} (rng : PyRand) (l : List α) :
    (pyShuffleL rng l).1.Perm l :=
  pyShuffleGo_perm l.length rng l (Nat.le_refl _)

example : parseEnumVals "enum(\x27WD\x27,\x27H\x27,\x27MC\x27)" = ["WD", "H", "MC"] := by
  decide

example : parseEnumVals "enum(\x27O\x27\x27Brien\x27,\x27Smith\x27)" = ["O\x27Brien", "Smith"] := by
  decide

theorem dedupFirst_go_nodup {α : Type} [DecidableEq α] (l acc : List α)
    (h : acc.Nodup) :
    (l.foldl (fun acc x => if x ∈ acc then acc else acc ++ [x]) acc).Nodup := by
  induction l generalizing acc with
  | nil => simpa using h
  | cons x rest ih =>
    simp only [List.foldl_cons]
    by_cases hx : x ∈ acc
    · simpa [hx] using ih acc h
    · have : (acc ++ [x]).Nodup := by
        simp [List.nodup_append, h, hx]
      simpa [hx] using ih (acc ++ [x]) this

/-- `dedupFirst` has no duplicates. -/
theorem dedupFirst_nodup {α : Type} [DecidableEq α] (l : List α) :
    (dedupFirst l).Nodup :=
  dedupFirst_go_nodup l [] List.nodup_nil

theorem dedupFirst_go_mem {α : Type} [DecidableEq α] (l : List α) :
    ∀ (acc : List α) (y : α),
      y ∈ l.foldl (fun acc x => if x ∈ acc then acc else acc ++ [x]) acc →
      y ∈ acc ∨ y ∈ l := by
  induction l with
  | nil => intro acc y h; simp at h; exact Or.inl h
  | cons x rest ih =>
    intro acc y h
    simp only [List.foldl_cons] at h
    by_cases hx : x ∈ acc
    · rcases ih _ y (by simpa [hx] using h) with h₂ | h₂
      · exact Or.inl h₂
      · exact Or.inr (List.mem_cons_of_mem _ h₂)
    · rcases ih _ y (by simpa [hx] using h) with h₂ | h₂
      · rcases List.mem_append.mp h₂ with h₃ | h₃
        · exact Or.inl h₃
        · simp at h₃; subst h₃; exact Or.inr (List.mem_cons_self _ _)
      · exact Or.inr (List.mem_cons_of_mem _ h₂)

/-- Every element of `dedupFirst l` comes from `l`. -/
theorem dedupFirst_subset {α : Type} [DecidableEq α] (l : List α) (y : α)
    (h : y ∈ dedupFirst l) : y ∈ l := by
  rcases dedupFirst_go_mem l [] y h with h₂ | h₂
  · simp at h₂
  · exact h₂

/-- The group-collection fold of `find_overlapping_constraints` is the
filtered map of per-position groups. -/
theorem foldl_groups (cs : List UniqueConstraint) :
    ∀ (l : List (Nat × UniqueConstraint)) (acc : List (List UniqueConstraint)),
      l.foldl (fun acc p =>
        let group := overlapGroupAt cs p
        if group.length > 1 then acc ++ [group] else acc) acc
      = acc ++ (l.filter (fun p => 1 < (overlapGroupAt cs p).length)).map
          (overlapGroupAt cs) := by
  intro l
  induction l with
  | nil => intro acc; simp
  | cons x rest ih =>
    intro acc
    by_cases h : 1 < (overlapGroupAt cs x).length
    · simp only [List.foldl_cons, List.filter_cons]
      simp [h, ih]
    · simp only [List.foldl_cons, List.filter_cons]
      simp [h, ih]

/-- Elements of the name-set dedup fold come from the seed or the input. -/
theorem dedupBy_mem :
    ∀ (l : List (List UniqueConstraint)) (acc : List (List UniqueConstraint))
      (y : List UniqueConstraint),
      y ∈ l.foldl (fun ug g =>
        if ug.any (fun g₀ => sameNameSet g₀ g) then ug else ug ++ [g]) acc →
      y ∈ acc ∨ y ∈ l := by
  intro l
  induction l with
  | nil => intro acc y h; exact Or.inl (by simpa using h)
  | cons x rest ih =>
    intro acc y h
    simp only [List.foldl_cons] at h
    by_cases hx : acc.any (fun g₀ => sameNameSet g₀ x)
    · rcases ih _ y (by simpa [hx] using h) with h₂ | h₂
      · exact Or.inl h₂
      · exact Or.inr (List.mem_cons_of_mem _ h₂)
    · rcases ih _ y (by simpa [hx] using h) with h₂ | h₂
      · rcases List.mem_append.mp h₂ with h₃ | h₃
        · exact Or.inl h₃
        · simp at h₃; subst h₃; exact Or.inr (List.mem_cons_self _ _)
      · exact Or.inr (List.mem_cons_of_mem _ h₂)

/-- The seed of the name-set dedup fold survives into the result. -/
theorem dedupBy_sub_acc :
    ∀ (l : List (List UniqueConstraint)) (acc : List (List UniqueConstraint))
      (y : List UniqueConstraint), y ∈ acc →
      y ∈ l.foldl (fun ug g =>
        if ug.any (fun g₀ => sameNameSet g₀ g) then ug else ug ++ [g]) acc := by
  intro l
  induction l with
  | nil => intro acc y h; simpa using h
  | cons x rest ih =>
    intro acc y h
    simp only [List.foldl_cons]
    by_cases hx : acc.any (fun g₀ => sameNameSet g₀ x)
    · simpa [hx] using ih _ y h
    · exact (by simpa [hx] using ih _ y (List.mem_append_left _ h))

/-- `sameNameSet` is reflexive. -/
theorem sameNameSet_refl (g : List UniqueConstraint) : sameNameSet g g = true := by
  simp [sameNameSet, List.all_eq_true]

/-- Every input group is represented in the dedup fold's result by a
group with the same name set. -/
theorem dedupBy_covers :
    ∀ (l : List (List UniqueConstraint)) (acc : List (List UniqueConstraint))
      (g : List UniqueConstraint), g ∈ l →
      ∃ g', g' ∈ l.foldl (fun ug g =>
          if ug.any (fun g₀ => sameNameSet g₀ g) then ug else ug ++ [g]) acc ∧
        sameNameSet g' g = true := by
  intro l
  induction l with
  | nil => intro acc g h; simp at h
  | cons x rest ih =>
    intro acc g h
    simp only [List.foldl_cons]
    rcases List.mem_cons.mp h with h₁ | h₁
    · subst h₁
      by_cases hx : acc.any (fun g₀ => sameNameSet g₀ g)
      · rcases List.any_eq_true.mp hx with ⟨g₀, hg₀, hsame⟩
        exact ⟨g₀, by simpa [hx] using dedupBy_sub_acc rest acc g₀ hg₀, hsame⟩
      · refine ⟨g, ?_, sameNameSet_refl g⟩
        simpa [hx] using
          dedupBy_sub_acc rest (acc ++ [g]) g (List.mem_append_right _ (by simp))
    · by_cases hx : acc.any (fun g₀ => sameNameSet g₀ x)
      · simpa [hx] using ih _ g h₁
      · simpa [hx] using ih _ g h₁

/-- The dedup fold's result has pairwise distinct name sets. -/
theorem dedupBy_pairwise :
    ∀ (l : List (List UniqueConstraint)) (acc : List (List UniqueConstraint)),
      acc.Pairwise (fun a b => sameNameSet a b = false) →
      (l.foldl (fun ug g =>
          if ug.any (fun g₀ => sameNameSet g₀ g) then ug else ug ++ [g])
        acc).Pairwise (fun a b => sameNameSet a b = false) := by
  intro l
  induction l with
  | nil => intro acc h; simpa using h
  | cons x rest ih =>
    intro acc h
    simp only [List.foldl_cons]
    by_cases hx : acc.any (fun g₀ => sameNameSet g₀ x)
    · simpa [hx] using ih _ h
    · have hgrow : (acc ++ [x]).Pairwise (fun a b => sameNameSet a b = false) := by
        rw [List.pairwise_append]
        refine ⟨h, by simp, ?_⟩
        intro a ha b hb
        simp at hb; subst hb
        have := List.any_eq_false.mp (by simpa using hx)
        simpa using this a ha
      simpa [hx] using ih _ hgrow

/-! ## Claim theorems -/

/-- C3 (code bug): in `generate_batch_fast`, an enum-typed column that
sits uncontrolled in a composite unique index next to a controlled column
receives the sequential placeholder `"seq_00000000"` — a non-null value
that is *not* one of the column's declared enum literals, contradicting
the spec's enum invariant (and the intent documented in
`test_conditional_fk_discriminator_enum.py`). -/
theorem C3_enum_sequential_value_escapes_declared_list :
    ((generate_batch_fast c3env 0 1 ⟨[3]⟩ {}).1.map
        (fun r => Row.get r "PT") = [Value.vStr "seq_00000000"]) ∧
      Value.vStr "seq_00000000" ∉
        (parseEnumVals c3pt.column_type).map Value.vStr := by
  constructor
  · decide
  · decide

/-- C9 counterexample: on the overlap chain `U1`-`U2`-`U3` (transitively
one class of three constraints), `find_overlapping_constraints` returns
*three* groups rather than the single equivalence class, and the middle
constraint `U2` appears in all three — falsifying both "exactly the
equivalence classes of the transitive closure" and "no constraint appears
in two returned groups". -/
theorem C9_counterexample_chain_not_equivalence_classes :
    (find_overlapping_constraints [c9u1, c9u2, c9u3]).length = 3 ∧
      2 ≤ (find_overlapping_constraints [c9u1, c9u2, c9u3]).countP
        (fun g => g.contains c9u2) := by
  refine ⟨by decide, by decide⟩

/-- C9 (amended): `find_overlapping_constraints` returns, deduplicated by
name set, the per-constraint *direct-overlap stars* — each returned group
is some constraint together with all constraints sharing a column with
it (of total size ≥ 2), every such star is represented up to name set,
and the returned groups have pairwise distinct name sets (they are *not*
in general the transitive-overlap equivalence classes, and one
constraint may appear in several groups). -/
theorem C9_find_overlapping_is_dedup_of_direct_overlap_stars
    (cs : List UniqueConstraint) :
    (∀ g ∈ find_overlapping_constraints cs,
        (∃ p ∈ cs.enum, g = overlapGroupAt cs p) ∧ 1 < g.length) ∧
      (∀ p ∈ cs.enum, 1 < (overlapGroupAt cs p).length →
        ∃ g, g ∈ find_overlapping_constraints cs ∧
          sameNameSet g (overlapGroupAt cs p) = true) ∧
      (find_overlapping_constraints cs).Pairwise
        (fun a b => sameNameSet a b = false) := by
  by_cases hlen : cs.length < 2
  · have hfind : find_overlapping_constraints cs = [] := by
      simp [find_overlapping_constraints, hlen]
    refine ⟨by simp [hfind], ?_, by simp [hfind]⟩
    intro p hp hlt
    exfalso
    match cs, hlen with
    | [], _ => simp at hp
    | [u], _ =>
      have hp' : p = (0, u) := by simpa [List.enum] using hp
      subst hp'
      have : overlapGroupAt [u] (0, u) = [u] := by
        simp [overlapGroupAt, List.enum, dedupFirst]
      rw [this] at hlt
      simp at hlt
  · have hfind : find_overlapping_constraints cs =
        ((cs.enum.filter (fun p => 1 < (overlapGroupAt cs p).length)).map
          (overlapGroupAt cs)).foldl
          (fun ug g => if ug.any (fun g₀ => sameNameSet g₀ g) then ug
            else ug ++ [g]) [] := by
      simp only [find_overlapping_constraints, hlen, if_false]
      rw [foldl_groups]
      simp
    refine ⟨?_, ?_, ?_⟩
    · intro g hg
      rw [hfind] at hg
      rcases dedupBy_mem _ _ _ hg with h | h
      · simp at h
      · rcases List.mem_map.mp h with ⟨p, hp, rfl⟩
        have hp₂ := List.of_mem_filter hp
        exact ⟨⟨p, List.mem_of_mem_filter hp, rfl⟩, by simpa using hp₂⟩
    · intro p hp hlt
      have hmem : overlapGroupAt cs p ∈
          (cs.enum.filter (fun p => 1 < (overlapGroupAt cs p).length)).map
            (overlapGroupAt cs) :=
        List.mem_map_of_mem _ (List.mem_filter.mpr ⟨hp, by simpa using hlt⟩)
      rcases dedupBy_covers _ [] _ hmem with ⟨g', hg', hsame⟩
      exact ⟨g', by rw [hfind]; exact hg', hsame⟩
    · rw [hfind]
      exact dedupBy_pairwise _ [] (by simp)

/-- C9 witness: the amended characterisation applied to the chain
instance — the first returned group is the direct-overlap star of `U1`
and has size 2. -/
theorem C9_amended_witness :
    (∃ p ∈ ([c9u1, c9u2, c9u3] : List UniqueConstraint).enum,
        [c9u1, c9u2] = overlapGroupAt [c9u1, c9u2, c9u3] p) ∧
      1 < ([c9u1, c9u2] : List UniqueConstraint).length :=
  (C9_find_overlapping_is_dedup_of_direct_overlap_stars
    [c9u1, c9u2, c9u3]).1 [c9u1, c9u2] (by decide)

/-- Folding list-appends is binding. -/
theorem foldl_append_bind {α β : Type} (g : α → List β) :
    ∀ (l : List α) (acc : List β),
      l.foldl (fun acc x => acc ++ g x) acc = acc ++ l.flatMap g := by
  intro l
  induction l with
  | nil => intro acc; simp
  | cons x rest ih =>
    intro acc
    simp [List.flatMap_cons, ih, List.append_assoc]

/-- C5 counterexample: with one table of two rows inserted in the order
`id = 1` then `id = 2`, the *first* emitted DELETE targets the *first*
inserted row (pk 1), not the last one — the DELETE stream is not the
strict reverse of the INSERT stream within a table. -/
theorem C5_counterexample_deletes_forward_within_table :
    generate_deletes c5self ["db.T"] c5gen =
        [SqlStmt.commentDel "db.T",
          SqlStmt.deleteByPk "db" "T" "id" (Value.vInt 1),
          SqlStmt.deleteByPk "db" "T" "id" (Value.vInt 2)] ∧
      insertRowSeq ["db.T"] c5gen = [("db.T", c5r1), ("db.T", c5r2)] ∧
      Row.get c5r1 "id" = Value.vInt 1 ∧ Row.get c5r2 "id" = Value.vInt 2 ∧
      Value.vInt 1 ≠ Value.vInt 2 := by
  refine ⟨by decide, by decide, by decide, by decide, by decide⟩

/-- C5 (amended): the DELETE stream visits the tables of `order` in
*reverse* emission order, but within each table the row deletes follow
the row list in the *same* (forward) order as the inserts: both the
insert-row sequence and each table's delete block traverse
`generated_rows[node]` front to back. -/
theorem C5_deletes_reverse_tables_forward_rows (self : GenSelf)
    (order : List String) (gen : List (String × List Row)) :
    generate_deletes self order gen =
        (order.reverse).flatMap (deleteStmtsFor self gen) ∧
      insertRowSeq order gen =
        order.flatMap (fun node =>
          ((alookup gen node).getD []).map (fun r => (node, r))) ∧
      (∀ node tmeta, alookup self.metadata node = some tmeta →
        deleteStmtsFor self gen node =
          SqlStmt.commentDel node ::
            ((alookup gen node).getD []).flatMap (deleteForRow tmeta)) := by
  refine ⟨?_, ?_, ?_⟩
  · rw [generate_deletes, foldl_append_bind]
    simp
  · rw [insertRowSeq, foldl_append_bind]
    simp
  · intro node tmeta h
    simp only [deleteStmtsFor, h]
    rw [foldl_append_bind]
    simp

/-- C5 witness: the amended characterisation applied to the concrete
two-row instance. -/
theorem C5_deletes_witness :
    deleteStmtsFor c5self c5gen "db.T" =
      SqlStmt.commentDel "db.T" ::
        ((alookup c5gen "db.T").getD []).flatMap (deleteForRow c5tmeta) :=
  (C5_deletes_reverse_tables_forward_rows c5self ["db.T"] c5gen).2.2
    "db.T" c5tmeta (by decide)

/-- `rng.choice` on a non-empty list returns an element of it. -/
theorem choice_mem (rng : PyRand) (xs : List Value) (h : xs ≠ []) :
    (rng.choice xs).1 ∈ xs := by
  match xs, h with
  | y :: t, _ =>
    simp only [PyRand.choice]
    have hlt : (rng.next).1 % (y :: t).length < (y :: t).length :=
      Nat.mod_lt _ (by simp)
    rw [List.get?_eq_get hlt]
    simp only [Option.getD_some]
    exact List.get_mem _ _ _

/-- One unconditional-FK step either leaves the row alone or writes a
column that no conditional FK fired on. -/
theorem uncondStep_shape (ctx : ResolveCtx) (assigned : List String)
    (row_idx : Nat) (acc : Row × PyRand) (fk : FKMeta) :
    (uncondStep ctx assigned row_idx acc fk).1 = acc.1 ∨
      (assigned.contains fk.column_name = false ∧
        ∃ v, (uncondStep ctx assigned row_idx acc fk).1 =
          acc.1.set fk.column_name v) := by
  obtain ⟨r, rng⟩ := acc
  simp only [uncondStep]
  repeat' split
  all_goals try exact Or.inl rfl
  all_goals exact Or.inr ⟨by simp_all, _, rfl⟩

/-- A column assigned by a conditional FK is untouched by the
unconditional step. -/
theorem uncondStep_preserves (ctx : ResolveCtx) (assigned : List String)
    (row_idx : Nat) (acc : Row × PyRand) (fk : FKMeta) (c : String)
    (hc : c ∈ assigned) :
    Row.get (uncondStep ctx assigned row_idx acc fk).1 c = Row.get acc.1 c := by
  rcases uncondStep_shape ctx assigned row_idx acc fk with h | ⟨hcontains, v, h⟩
  · rw [h]
  · rw [h]
    have hne : fk.column_name ≠ c := by
      intro hEq
      rw [hEq] at hcontains
      simp [List.contains] at hcontains
      exact hcontains hc
    exact Row.get_set_other _ _ _ _ hne

/-- C2 counterexample: two conditional FKs on one column, both predicates
true on the row; the first (`F1`) has an *empty* parent cache, so the
code skips it and fires the *second* (`F2`), assigning a value `F1`'s
parent never produced — the firing FK is not "the first one whose
predicate evaluates true". -/
theorem C2_counterexample_first_match_with_empty_cache_skipped :
    (applyConditionalFks c2caches "ref" c2row ⟨[0]⟩ [c2fk1, c2fk2]).1.get "ref"
        = Value.vInt 9 ∧
      (applyConditionalFks c2caches "ref" c2row ⟨[0]⟩ [c2fk1, c2fk2]).2.1 = true ∧
      (match c2fk1.condition with
        | some cond => evaluate_fk_condition cond c2row
        | none => false) = true ∧
      (alookup c2caches c2fk1.constraint_name).getD [] = [] ∧
      Value.vInt 9 ∉ (alookup c2caches c2fk1.constraint_name).getD [] := by
  refine ⟨by decide, by decide, by decide, by decide, by decide⟩

/-- C2 (amended): per row and column, the conditional FKs are scanned in
configuration order and at most one fires — namely the first whose
predicate evaluates true *and* whose referenced parent produced at least
one cached value (a predicate-true FK with an empty cache is skipped and
a later FK may fire); the assigned value comes from the firing FK's own
cache; when no FK fires the row is unchanged; and the unconditional
phase never reassigns a column some conditional FK fired on. -/
theorem C2_conditional_fk_first_match_with_values
    (caches : List (String × List Value)) (fk_col : String) (row : Row)
    (rng : PyRand) (fks : List FKMeta) :
    (∀ fk, firstFiringFk caches row fks = some fk →
      ∃ v rng₂,
        applyConditionalFks caches fk_col row rng fks =
          (row.set fk_col v, true, rng₂) ∧
        v ∈ (alookup caches fk.constraint_name).getD []) ∧
    (firstFiringFk caches row fks = none →
      applyConditionalFks caches fk_col row rng fks = (row, false, rng)) ∧
    (∀ (ctx : ResolveCtx) (assigned : List String) (row_idx : Nat) (r : Row)
        (rng₃ : PyRand) (c : String), c ∈ assigned →
      Row.get (applyUnconditionalFks ctx assigned row_idx r rng₃).1 c =
        Row.get r c) := by
  refine ⟨?_, ?_, ?_⟩
  · intro fk
    induction fks generalizing rng with
    | nil => intro h; simp [firstFiringFk] at h
    | cons hd rest ih =>
      intro h
      match hc : hd.condition with
      | none =>
        simp only [firstFiringFk, hc] at h
        simp only [applyConditionalFks, hc]
        exact ih rng h
      | some cond =>
        by_cases hev : evaluate_fk_condition cond row
        · by_cases hne : (alookup caches hd.constraint_name).getD [] ≠ []
          · have hfk : fk = hd := by
              simp only [firstFiringFk, hc] at h
              rw [if_pos ⟨hev, hne⟩] at h
              exact (Option.some_inj.mp h).symm
            subst hfk
            simp only [applyConditionalFks, hc, hev, if_true]
            rw [if_pos hne]
            exact ⟨_, _, rfl, choice_mem rng _ hne⟩
          · simp only [firstFiringFk, hc] at h
            rw [if_neg (by tauto)] at h
            simp only [applyConditionalFks, hc, hev, if_true]
            rw [if_neg hne]
            exact ih rng h
        · simp only [firstFiringFk, hc] at h
          rw [if_neg (by tauto)] at h
          simp only [applyConditionalFks, hc]
          rw [if_neg hev]
          exact ih rng h
  · induction fks generalizing rng with
    | nil => intro _; rfl
    | cons hd rest ih =>
      intro h
      match hc : hd.condition with
      | none =>
        simp only [firstFiringFk, hc] at h
        simp only [applyConditionalFks, hc]
        exact ih rng h
      | some cond =>
        by_cases hev : evaluate_fk_condition cond row
        · by_cases hne : (alookup caches hd.constraint_name).getD [] ≠ []
          · simp only [firstFiringFk, hc] at h
            rw [if_pos ⟨hev, hne⟩] at h
            exact Option.noConfusion h
          · simp only [firstFiringFk, hc] at h
            rw [if_neg (by tauto)] at h
            simp only [applyConditionalFks, hc, hev, if_true]
            rw [if_neg hne]
            exact ih rng h
        · simp only [firstFiringFk, hc] at h
          rw [if_neg (by tauto)] at h
          simp only [applyConditionalFks, hc]
          rw [if_neg hev]
          exact ih rng h
  · intro ctx assigned row_idx r rng₃ c hc
    rw [applyUnconditionalFks]
    have H : ∀ (fks : List FKMeta) (acc : Row × PyRand),
        Row.get (fks.foldl (uncondStep ctx assigned row_idx) acc).1 c =
          Row.get acc.1 c := by
      intro fks
      induction fks with
      | nil => intro acc; rfl
      | cons fk rest ih =>
        intro acc
        simp only [List.foldl_cons]
        rw [ih, uncondStep_preserves ctx assigned row_idx acc fk c hc]
    exact H ctx.nodeFks (r, rng₃)

/-- C2 witness: the amended theorem at the concrete two-FK instance —
`F2` is the first firing FK and the assigned value comes from `F2`'s
cache. -/
theorem C2_conditional_fk_witness :
    ∃ v rng₂,
      applyConditionalFks c2caches "ref" c2row ⟨[0]⟩ [c2fk1, c2fk2] =
        (Row.set c2row "ref" v, true, rng₂) ∧
      v ∈ (alookup c2caches c2fk2.constraint_name).getD [] :=
  (C2_conditional_fk_first_match_with_values c2caches "ref" c2row ⟨[0]⟩
    [c2fk1, c2fk2]).1 c2fk2 (by decide)

/-- Appending to one tracker entry only grows every entry. -/
theorem trkD_aset_append_sub (trk : Trackers) (k : String) (x : List Value)
    (name : String) (tup : List Value) (h : tup ∈ trkD trk name) :
    tup ∈ trkD (aset trk k (trkD trk k ++ [x])) name := by
  by_cases hk : name = k
  · subst hk
    rw [trkD, alookup_aset_self]
    exact List.mem_append_left _ h
  · rw [trkD, alookup_aset_other _ _ _ _ (fun hEq => hk hEq.symm)]
    exact h

/-- `validateRow` only grows the trackers. -/
theorem validateRow_mono :
    ∀ (ucs : List UniqueConstraint) (trk : Trackers) (row : Row)
      (name : String) (tup : List Value), tup ∈ trkD trk name →
      tup ∈ trkD (validateRow trk row ucs).2 name := by
  intro ucs
  induction ucs with
  | nil => intro trk row name tup h; exact h
  | cons uc rest ih =>
    intro trk row name tup h
    simp only [validateRow]
    by_cases h₁ : (tupleOf uc row).contains Value.vNull = true
    · rw [if_pos h₁]
      exact ih trk row name tup h
    · rw [if_neg h₁]
      by_cases h₂ : (trkD trk uc.constraint_name).contains (tupleOf uc row) = true
      · rw [if_pos h₂]
        exact h
      · rw [if_neg h₂]
        exact ih _ row name tup (trkD_aset_append_sub trk uc.constraint_name _ name tup h)

/-- An accepted row's fully-non-null tuples were absent from the
trackers the row was checked against. -/
theorem validateRow_true_fresh :
    ∀ (ucs : List UniqueConstraint) (trk : Trackers) (row : Row),
      (validateRow trk row ucs).1 = true →
      ∀ uc ∈ ucs, (tupleOf uc row).contains Value.vNull = false →
      tupleOf uc row ∉ trkD trk uc.constraint_name := by
  intro ucs
  induction ucs with
  | nil => intro trk row _ uc huc; simp at huc
  | cons uc₀ rest ih =>
    intro trk row hok uc huc hnn
    simp only [validateRow] at hok
    rcases List.mem_cons.mp huc with hEq | hmem
    · subst hEq
      rw [if_neg (by rw [hnn]; simp)] at hok
      by_cases h₂ : (trkD trk uc.constraint_name).contains (tupleOf uc row) = true
      · rw [if_pos h₂] at hok
        exact absurd hok (by simp)
      · intro hinT
        exact h₂ (by simpa using hinT)
    · by_cases h₁ : (tupleOf uc₀ row).contains Value.vNull = true
      · rw [if_pos h₁] at hok
        exact ih trk row hok uc hmem hnn
      · rw [if_neg h₁] at hok
        by_cases h₂ : (trkD trk uc₀.constraint_name).contains (tupleOf uc₀ row) = true
        · rw [if_pos h₂] at hok
          exact absurd hok (by simp)
        · rw [if_neg h₂] at hok
          intro hinT
          exact ih _ row hok uc hmem hnn
            (trkD_aset_append_sub trk uc₀.constraint_name _ _ _ hinT)

/-- An accepted row's fully-non-null tuples are recorded in the
resulting trackers. -/
theorem validateRow_true_recorded :
    ∀ (ucs : List UniqueConstraint) (trk : Trackers) (row : Row),
      (validateRow trk row ucs).1 = true →
      ∀ uc ∈ ucs, (tupleOf uc row).contains Value.vNull = false →
      tupleOf uc row ∈ trkD (validateRow trk row ucs).2 uc.constraint_name := by
  intro ucs
  induction ucs with
  | nil => intro trk row _ uc huc; simp at huc
  | cons uc₀ rest ih =>
    intro trk row hok uc huc hnn
    simp only [validateRow] at hok ⊢
    rcases List.mem_cons.mp huc with hEq | hmem
    · subst hEq
      rw [if_neg (by rw [hnn]; simp)] at hok ⊢
      by_cases h₂ : (trkD trk uc.constraint_name).contains (tupleOf uc row) = true
      · rw [if_pos h₂] at hok
        exact absurd hok (by simp)
      · rw [if_neg h₂] at hok ⊢
        refine validateRow_mono rest _ row _ _ ?_
        rw [trkD, alookup_aset_self]
        exact List.mem_append_right _ (by simp)
    · by_cases h₁ : (tupleOf uc₀ row).contains Value.vNull = true
      · rw [if_pos h₁] at hok ⊢
        exact ih trk row hok uc hmem hnn
      · rw [if_neg h₁] at hok ⊢
        by_cases h₂ : (trkD trk uc₀.constraint_name).contains (tupleOf uc₀ row) = true
        · rw [if_pos h₂] at hok
          exact absurd hok (by simp)
        · rw [if_neg h₂] at hok ⊢
          exact ih _ row hok uc hmem hnn

/-- One `genBatchStep` preserves the batch invariant. -/
theorem genBatchStep_inv (env : GenEnv) (pre : BatchPre)
    (s : List Row × Trackers × SharedState × PyRand) (idx : Nat)
    (h : batchInv env.unique_constraints s) :
    batchInv env.unique_constraints (genBatchStep env pre s idx) := by
  obtain ⟨rows, trk, st, rng⟩ := s
  obtain ⟨htrack, hpair⟩ := h
  simp only [genBatchStep]
  set row := (genRowFast env pre idx st rng).1 with hrow
  by_cases hok : (validateRow trk row env.unique_constraints).1 = true
  · rw [if_pos hok]
    constructor
    · intro uc huc r hr hnn
      rcases List.mem_append.mp hr with h₁ | h₁
      · exact validateRow_mono _ trk row _ _ (htrack uc huc r h₁ hnn)
      · simp at h₁; subst h₁
        exact validateRow_true_recorded _ trk row hok uc huc hnn
    · intro uc huc
      rw [List.map_append, List.pairwise_append]
      refine ⟨hpair uc huc, by simp, ?_⟩
      intro t₁ ht₁ t₂ ht₂ hnn
      simp only [List.map_cons, List.map_nil, List.mem_singleton] at ht₂
      subst ht₂
      rcases List.mem_map.mp ht₁ with ⟨r, hrmem, rfl⟩
      intro hEq
      have hfresh := validateRow_true_fresh _ trk row hok uc huc (hEq ▸ hnn)
      exact hfresh (hEq ▸ htrack uc huc r hrmem hnn)
  · rw [if_neg hok]
    constructor
    · intro uc huc r hr hnn
      exact validateRow_mono _ trk row _ _ (htrack uc huc r hr hnn)
    · exact hpair

/-- C1 (amended): after row generation over a single batch, the row list
satisfies every unique constraint — no two accepted rows have equal
fully-non-null value tuples over any constraint's column list. -/
theorem C1_generate_batch_rows_unique (env : GenEnv)
    (start_idx end_idx : Nat) (rng : PyRand) (st : SharedState)
    (uc : UniqueConstraint) (huc : uc ∈ env.unique_constraints) :
    (((generate_batch_fast env start_idx end_idx rng st).1.map
        (tupleOf uc)).Pairwise
      (fun t₁ t₂ => t₁.contains Value.vNull = false → t₁ ≠ t₂)) := by
  have H : ∀ (idxs : List Nat) (s : List Row × Trackers × SharedState × PyRand),
      batchInv env.unique_constraints s →
      batchInv env.unique_constraints
        (idxs.foldl (genBatchStep env (batchPre env st)) s) := by
    intro idxs
    induction idxs with
    | nil => intro s h; exact h
    | cons i rest ih =>
      intro s h
      exact ih _ (genBatchStep_inv env (batchPre env st) s i h)
  have hinit : batchInv env.unique_constraints
      ([], initTrackers env.unique_constraints, st, rng) :=
    ⟨by intro uc huc r hr; simp at hr, by intro uc huc; simp⟩
  have := (H (((List.range (end_idx - start_idx)).map (start_idx + ·)))
    _ hinit).2 uc huc
  simpa [generate_batch_fast] using this

/-- C1 witness: the amended theorem at a concrete instance — a table
with a single-column unique integer column generates two rows with
distinct tuples. -/
theorem C1_generate_batch_unique_witness :
    (((generate_batch_fast
        { node := "db.U",
          tmeta := ⟨"db", "U",
            [{ name := "u", data_type := "int", is_nullable := "NO" }],
            [], false⟩,
          unique_constraints := [⟨"uq_u", ["u"]⟩] }
        0 2 ⟨[]⟩ {}).1.map (tupleOf ⟨"uq_u", ["u"]⟩)).Pairwise
      (fun t₁ t₂ => t₁.contains Value.vNull = false → t₁ ≠ t₂)) :=
  C1_generate_batch_rows_unique
    { node := "db.U",
      tmeta := ⟨"db", "U",
        [{ name := "u", data_type := "int", is_nullable := "NO" }],
        [], false⟩,
      unique_constraints := [⟨"uq_u", ["u"]⟩] }
    0 2 ⟨[]⟩ {} ⟨"uq_u", ["u"]⟩ (by decide)

/-- C1 counterexample: for the full pipeline the claim fails — after
`generate_parallel` and `resolve_fks_batch`, the child table `db.C`
holds two distinct rows whose tuples over its unique index `uq_c(c)`
are both the fully-non-null `[7]` (the resolver draws NOT-NULL FK values
at random without consulting unique constraints, lines 1366-1372). -/
theorem C1_counterexample_fk_resolution_breaks_uniqueness :
    (c1resolved.map (fun res => res.1.map (tupleOf ⟨"uq_c", ["c"]⟩))) =
        some [[Value.vInt 7], [Value.vInt 7]] ∧
      (alookup c1self.unique_constraints "db.C").getD [] = [⟨"uq_c", ["c"]⟩] ∧
      ([Value.vInt 7] : List Value).contains Value.vNull = false := by
  refine ⟨by decide, by decide, by decide⟩

/-- `comboLe` is total. -/
theorem comboLe_total (a b : Combo) : comboLe a b = true ∨ comboLe b a = true := by
  cases a <;> cases b <;> simp [comboLe] <;> omega

/-- `comboLe` is reflexive. -/
theorem comboLe_refl (a : Combo) : comboLe a a = true := by
  cases a <;> simp [comboLe]

/-- `firstMinCombo` of a non-empty list is `some`. -/
theorem firstMinCombo_cons_ne_none (a : UniqueConstraint × Combo)
    (l : List (UniqueConstraint × Combo)) : firstMinCombo (a :: l) ≠ none := by
  simp only [firstMinCombo]
  cases h : firstMinCombo l with
  | none => simp
  | some m => by_cases h₂ : comboLe a.2 m.2 <;> simp [h₂]

/-- `comboLe` is transitive. -/
theorem comboLe_trans {a b c : Combo} (h₁ : comboLe a b = true)
    (h₂ : comboLe b c = true) : comboLe a c = true := by
  cases a <;> cases b <;> cases c <;> simp [comboLe] at * <;> omega

/-- Head of `orderedInsert` for the combo order. -/
theorem orderedInsert_head_combo (x : UniqueConstraint × Combo) :
    ∀ l : List (UniqueConstraint × Combo),
      (l.orderedInsert (fun a b => comboLe a.2 b.2 = true) x).head? =
        some (match l with
          | [] => x
          | y :: _ => if comboLe x.2 y.2 then x else y) := by
  intro l
  cases l with
  | nil => rfl
  | cons y t =>
    by_cases h : comboLe x.2 y.2
    · simp [List.orderedInsert, h]
    · simp [List.orderedInsert, h]

/-- The head of the (stable) insertion sort by combination estimate is
the first minimum of the input.  Python's Timsort is stable, and all
stable sorts by the same key agree, so this is the head of
`constraint_combos.sort(key=...)`. -/
theorem insertionSort_head_firstMin :
    ∀ l : List (UniqueConstraint × Combo),
      (l.insertionSort (fun a b => comboLe a.2 b.2 = true)).head? =
        firstMinCombo l := by
  intro l
  induction l with
  | nil => rfl
  | cons x rest ih =>
    simp only [List.insertionSort]
    rw [orderedInsert_head_combo]
    cases hs : (rest.insertionSort (fun a b => comboLe a.2 b.2 = true)) with
    | nil =>
      have : firstMinCombo rest = none := by rw [← ih, hs]; rfl
      simp [firstMinCombo, this]
    | cons y t =>
      have : firstMinCombo rest = some y := by rw [← ih, hs]; rfl
      simp only [firstMinCombo, this]
      by_cases h : comboLe x.2 y.2
      · simp [h]
      · simp [h]

/-- `firstMinCombo` returns an element that is minimal in the list and
strictly below everything before it. -/
theorem firstMinCombo_spec :
    ∀ (l : List (UniqueConstraint × Combo)) (m : UniqueConstraint × Combo),
      firstMinCombo l = some m →
      ∃ l₁ l₂, l = l₁ ++ m :: l₂ ∧
        (∀ u ∈ l, comboLe m.2 u.2 = true) ∧
        (∀ u ∈ l₁, comboLt m.2 u.2 = true) := by
  intro l
  induction l with
  | nil => intro m h; simp [firstMinCombo] at h
  | cons x rest ih =>
    intro m h
    simp only [firstMinCombo] at h
    cases hr : firstMinCombo rest with
    | none =>
      rw [hr] at h
      have hm : m = x := by simpa using h.symm
      subst hm
      have hrest : rest = [] := by
        cases rest with
        | nil => rfl
        | cons a b => exact absurd hr (firstMinCombo_cons_ne_none a b)
      subst hrest
      refine ⟨[], [], rfl, ?_, by simp⟩
      intro u hu
      simp at hu; subst hu
      exact comboLe_refl _
    | some m' =>
      rw [hr] at h
      rcases ih m' hr with ⟨l₁, l₂, hdec, hall, hstrict⟩
      by_cases hle : comboLe x.2 m'.2
      · have hm : m = x := by simpa [hle] using h.symm
        subst hm
        refine ⟨[], rest, rfl, ?_, by simp⟩
        intro u hu
        rcases List.mem_cons.mp hu with h₂ | h₂
        · subst h₂; exact comboLe_refl _
        · exact comboLe_trans hle (hall u h₂)
      · have hm : m = m' := by simpa [hle] using h.symm
        subst hm
        refine ⟨x :: l₁, l₂, by rw [hdec]; simp, ?_, ?_⟩
        · intro u hu
          rcases List.mem_cons.mp hu with h₂ | h₂
          · subst h₂
            rcases comboLe_total u.2 m.2 with h₃ | h₃
            · exact absurd h₃ hle
            · exact h₃
          · exact hall u h₂
        · intro u hu
          rcases List.mem_cons.mp hu with h₂ | h₂
          · subst h₂
            simpa [comboLt] using hle
          · exact hstrict u h₂

/-- C8 (amended): with two or more composite unique constraints,
`select_tightest_constraint` returns a constraint whose combination
estimate is minimal, together with that estimate; among equally minimal
constraints the tie goes to the *earliest position in the input list*
(Python's stable sort) — not to the smallest index name. -/
theorem C8_select_tightest_first_minimal (fk_map : List (String × FKMeta))
    (pc : List (String × ColConfig)) (gr : List (String × List Row))
    (cs : List UniqueConstraint) (h : 2 ≤ cs.length) :
    ∃ r l₁ l₂,
      select_tightest_constraint fk_map pc gr cs =
        some (r, some (computeCombo fk_map pc gr 1 r.columns)) ∧
      cs = l₁ ++ r :: l₂ ∧
      (∀ u ∈ cs, comboLe (computeCombo fk_map pc gr 1 r.columns)
        (computeCombo fk_map pc gr 1 u.columns) = true) ∧
      (∀ u ∈ l₁, comboLt (computeCombo fk_map pc gr 1 r.columns)
        (computeCombo fk_map pc gr 1 u.columns) = true) := by
  match cs, h with
  | a :: b :: t, _ =>
    set f : UniqueConstraint → UniqueConstraint × Combo :=
      fun uc => (uc, computeCombo fk_map pc gr 1 uc.columns) with hf
    set combos := (a :: b :: t).map f with hcombos
    have hsel : select_tightest_constraint fk_map pc gr (a :: b :: t) =
        (combos.insertionSort (fun a b => comboLe a.2 b.2 = true)).head?.map
          (fun p => (p.1, some p.2)) := rfl
    rw [insertionSort_head_firstMin] at hsel
    have hne : ∃ m, firstMinCombo combos = some m := by
      rw [hcombos]
      simp only [List.map_cons]
      cases h₂ : firstMinCombo (f a :: (b :: t).map f) with
      | none => exact absurd h₂ (firstMinCombo_cons_ne_none _ _)
      | some m => exact ⟨m, h₂⟩
    rcases hne with ⟨m, hm⟩
    rcases firstMinCombo_spec combos m hm with ⟨L₁, L₂, hdec, hall, hstrict⟩
    have hmem : m ∈ combos := by rw [hdec]; exact List.mem_append_right _ (by simp)
    have hmf : m = f m.1 := by
      rcases List.mem_map.mp (hcombos ▸ hmem) with ⟨uc, _, huc⟩
      rw [← huc]
    refine ⟨m.1, L₁.map Prod.fst, L₂.map Prod.fst, ?_, ?_, ?_, ?_⟩
    · rw [hsel, hm]
      have : m.2 = computeCombo fk_map pc gr 1 m.1.columns := by
        conv_lhs => rw [hmf]
      simp [this]
    · have hfst : combos.map Prod.fst = a :: b :: t := by
        rw [hcombos, List.map_map]
        have : (Prod.fst ∘ f) = fun uc => uc := rfl
        rw [this, List.map_id']
      rw [← hfst, hdec]
      simp
    · intro u hu
      have humem : f u ∈ combos := hcombos ▸ List.mem_map_of_mem f hu
      have := hall (f u) humem
      have hm2 : m.2 = computeCombo fk_map pc gr 1 m.1.columns := by
        conv_lhs => rw [hmf]
      rw [hm2] at this
      exact this
    · intro u hu
      rcases List.mem_map.mp hu with ⟨p, hp, hpu⟩
      have hpcombos : p ∈ combos := by rw [hdec]; exact List.mem_append_left _ hp
      have hpf : p = f p.1 := by
        rcases List.mem_map.mp (hcombos ▸ hpcombos) with ⟨uc, _, huc⟩
        rw [← huc]
      have := hstrict p hp
      have hm2 : m.2 = computeCombo fk_map pc gr 1 m.1.columns := by
        conv_lhs => rw [hmf]
      rw [hm2] at this
      have hp2 : p.2 = computeCombo fk_map pc gr 1 u.columns := by
        conv_lhs => rw [hpf]
        rw [hpu]
      rw [hp2] at this
      exact this

/-- C8 witness: the amended theorem applied at the concrete two-element
tie instance. -/
theorem C8_select_tightest_witness :
    ∃ r l₁ l₂,
      select_tightest_constraint [] c8pc [] [c8z, c8a] =
        some (r, some (computeCombo [] c8pc [] 1 r.columns)) ∧
      [c8z, c8a] = l₁ ++ r :: l₂ ∧
      (∀ u ∈ [c8z, c8a], comboLe (computeCombo [] c8pc [] 1 r.columns)
        (computeCombo [] c8pc [] 1 u.columns) = true) ∧
      (∀ u ∈ l₁, comboLt (computeCombo [] c8pc [] 1 r.columns)
        (computeCombo [] c8pc [] 1 u.columns) = true) :=
  C8_select_tightest_first_minimal [] c8pc [] [c8z, c8a] (by decide)

/-- C8 counterexample: two constraints with *equal* estimates (4 each);
the code returns the first-listed `Z`, although the smallest index name
among the minimal constraints is `A` — so ties are broken by list
position, not by index name. -/
theorem C8_counterexample_tie_not_broken_by_name :
    (select_tightest_constraint [] c8pc [] [c8z, c8a]).map
        (fun p => p.1.constraint_name) = some "Z" ∧
      computeCombo [] c8pc [] 1 c8z.columns = .fin 4 ∧
      computeCombo [] c8pc [] 1 c8a.columns = .fin 4 ∧
      c8a.constraint_name = "A" ∧ c8z.constraint_name = "Z" := by
  refine ⟨by decide, by decide, by decide, by decide, by decide⟩

/-- C4 (code bug): a table configured with `rows: 0` is *not* generated
empty — `cfg.get("rows") or default` treats the falsy `0` as missing, so
the pipeline computes the default row count (here 100), generates 100
rows, and emits an INSERT body for the table. -/
theorem C4_zero_rows_config_generates_default_rows :
    pyOrRows (some 0) 100 = 100 ∧
      rowsPerTable c4self ["db.T"] = [("db.T", 100)] ∧
      c4rows.length = 100 ∧
      insertRowSeq ["db.T"] [("db.T", c4rows)] ≠ [] := by
  refine ⟨by decide, by decide, by decide, by decide⟩


/-- `applyConditionalFks` either leaves the row unchanged or writes the
scanned column. -/
theorem applyConditionalFks_shape (caches : List (String × List Value))
    (fk_col : String) :
    ∀ (fks : List FKMeta) (row : Row) (rng : PyRand),
      (applyConditionalFks caches fk_col row rng fks).1 = row ∨
        ∃ v, (applyConditionalFks caches fk_col row rng fks).1 =
          row.set fk_col v := by
  intro fks
  induction fks with
  | nil => intro row rng; exact Or.inl rfl
  | cons fk rest ih =>
    intro row rng
    match hc : fk.condition with
    | none =>
      simp only [applyConditionalFks, hc]
      exact ih row rng
    | some cond =>
      simp only [applyConditionalFks, hc]
      by_cases hev : evaluate_fk_condition cond row
      · rw [if_pos hev]
        by_cases hne : (alookup caches fk.constraint_name).getD [] ≠ []
        · rw [if_pos hne]
          exact Or.inr ⟨_, rfl⟩
        · rw [if_neg hne]
          exact ih row rng
      · rw [if_neg hev]
        exact ih row rng

/-- One conditional-phase column step: a column different from `pk`
leaves `pk` untouched, and the assigned list only grows by that
column. -/
theorem condColStep_pk (ctx : ResolveCtx) (pk : String)
    (acc : Row × List String × PyRand) (fk_col : String) (hne : fk_col ≠ pk) :
    Row.get (condColStep ctx acc fk_col).1 pk = Row.get acc.1 pk ∧
      ∀ c ∈ (condColStep ctx acc fk_col).2.1, c ∈ acc.2.1 ∨ c = fk_col := by
  obtain ⟨r, assigned, rng⟩ := acc
  simp only [condColStep]
  by_cases hs : isStaticCol ctx.cfg fk_col = true
  · rw [if_pos hs]
    exact ⟨rfl, fun c hc => Or.inl hc⟩
  · rw [if_neg (by simp [hs])]
    constructor
    · show Row.get (applyConditionalFks ctx.conditional_fk_caches fk_col r rng
        (ctx.nodeFks.filter
          (fun fk => fk.condition.isSome ∧ fk.column_name = fk_col))).1 pk =
          Row.get r pk
      rcases applyConditionalFks_shape ctx.conditional_fk_caches fk_col
          (ctx.nodeFks.filter
            (fun fk => fk.condition.isSome ∧ fk.column_name = fk_col)) r rng
        with h | ⟨v, h⟩
      · rw [h]
      · rw [h]
        exact Row.get_set_other _ _ _ _ hne
    · intro c hc
      have hc₂ : c ∈ (if (applyConditionalFks ctx.conditional_fk_caches fk_col r rng
          (ctx.nodeFks.filter
            (fun fk => fk.condition.isSome ∧ fk.column_name = fk_col))).2.1 = true
          then assigned ++ [fk_col] else assigned) := hc
      by_cases hfired : (applyConditionalFks ctx.conditional_fk_caches fk_col r rng
          (ctx.nodeFks.filter
            (fun fk => fk.condition.isSome ∧ fk.column_name = fk_col))).2.1 = true
      · rw [if_pos hfired] at hc₂
        rcases List.mem_append.mp hc₂ with h | h
        · exact Or.inl h
        · exact Or.inr (by simpa using h)
      · rw [if_neg hfired] at hc₂
        exact Or.inl hc₂

/-- The conditional phase over columns all different from `pk` leaves
`pk` untouched, and only those columns can enter the assigned list. -/
theorem condFold_pk (ctx : ResolveCtx) (pk : String) :
    ∀ (cols : List String) (acc : Row × List String × PyRand),
      (∀ c ∈ cols, c ≠ pk) →
      Row.get (cols.foldl (condColStep ctx) acc).1 pk = Row.get acc.1 pk ∧
        ∀ c ∈ (cols.foldl (condColStep ctx) acc).2.1,
          c ∈ acc.2.1 ∨ c ∈ cols := by
  intro cols
  induction cols with
  | nil => intro acc h; exact ⟨rfl, fun c hc => Or.inl hc⟩
  | cons col rest ih =>
    intro acc h
    simp only [List.foldl_cons]
    have hcol : col ≠ pk := h col (by simp)
    have hstep := condColStep_pk ctx pk acc col hcol
    have hrest := ih (condColStep ctx acc col) (fun c hc => h c (by simp [hc]))
    constructor
    · rw [hrest.1, hstep.1]
    · intro c hc
      rcases hrest.2 c hc with h₁ | h₁
      · rcases hstep.2 c h₁ with h₂ | h₂
        · exact Or.inl h₂
        · exact Or.inr (by simp [h₂])
      · exact Or.inr (by simp [h₁])

/-- Under the single-PK pre-allocation hypotheses: the unconditional step
of an FK on the PK column writes the pre-allocated value, and every step
preserves a previously written pre-allocated value. -/
theorem uncondStep_target (ctx : ResolveCtx) (pk : String) (pre : List Value)
    (cm : ColumnMeta) (assigned : List String) (row_idx : Nat)
    (hpre : ctx.pre_allocated_pk = some pre) (hne : pre ≠ [])
    (hpkfk : ctx.pk_fk_columns.contains pk = true)
    (hassigned : assigned.contains pk = false)
    (hstatic : isStaticCol ctx.cfg pk = false)
    (hcol : ctx.tmeta.columns.find? (fun c => c.name = pk) = some cm)
    (hnn : cm.is_nullable = "NO") (acc : Row × PyRand) (fk : FKMeta) :
    (fk.condition = none ∧ fk.column_name = pk →
      Row.get (uncondStep ctx assigned row_idx acc fk).1 pk =
        (pre.get? row_idx).getD Value.vNull) ∧
    (Row.get acc.1 pk = (pre.get? row_idx).getD Value.vNull →
      Row.get (uncondStep ctx assigned row_idx acc fk).1 pk =
        (pre.get? row_idx).getD Value.vNull) := by
  obtain ⟨r, rng⟩ := acc
  have hset : fk.condition = none → fk.column_name = pk →
      Row.get (uncondStep ctx assigned row_idx (r, rng) fk).1 pk =
        (pre.get? row_idx).getD Value.vNull := by
    intro hcnone hcname
    have hmem₁ : pk ∉ assigned := by simpa [List.contains] using hassigned
    have hmem₂ : pk ∈ ctx.pk_fk_columns := by simpa [List.contains] using hpkfk
    simp [uncondStep, hcnone, hcname, hassigned, hstatic, hcol, hnn, hpre,
      hne, hpkfk, hmem₁, hmem₂]
  constructor
  · intro h
    exact hset h.1 h.2
  · intro htarget
    by_cases hname : fk.column_name = pk
    · cases hcond : fk.condition with
      | none => exact hset hcond hname
      | some cond => simpa [uncondStep, hcond] using htarget
    · rcases uncondStep_shape ctx assigned row_idx (r, rng) fk with h | ⟨_, v, h⟩
      · rw [h]
        exact htarget
      · rw [h, Row.get_set_other _ _ _ _ hname]
        exact htarget

/-- Folding the unconditional steps preserves a written pre-allocated PK
value. -/
theorem uncondFold_keep (ctx : ResolveCtx) (pk : String) (pre : List Value)
    (cm : ColumnMeta) (assigned : List String) (row_idx : Nat)
    (hpre : ctx.pre_allocated_pk = some pre) (hne : pre ≠ [])
    (hpkfk : ctx.pk_fk_columns.contains pk = true)
    (hassigned : assigned.contains pk = false)
    (hstatic : isStaticCol ctx.cfg pk = false)
    (hcol : ctx.tmeta.columns.find? (fun c => c.name = pk) = some cm)
    (hnn : cm.is_nullable = "NO") :
    ∀ (fks : List FKMeta) (acc : Row × PyRand),
      Row.get acc.1 pk = (pre.get? row_idx).getD Value.vNull →
      Row.get (fks.foldl (uncondStep ctx assigned row_idx) acc).1 pk =
        (pre.get? row_idx).getD Value.vNull := by
  intro fks
  induction fks with
  | nil => intro acc h; exact h
  | cons fk rest ih =>
    intro acc h
    simp only [List.foldl_cons]
    exact ih _ ((uncondStep_target ctx pk pre cm assigned row_idx hpre hne
      hpkfk hassigned hstatic hcol hnn acc fk).2 h)

/-- Folding the unconditional steps over a list containing an
unconditional FK on the PK column writes the pre-allocated value. -/
theorem uncondFold_target (ctx : ResolveCtx) (pk : String) (pre : List Value)
    (cm : ColumnMeta) (assigned : List String) (row_idx : Nat)
    (hpre : ctx.pre_allocated_pk = some pre) (hne : pre ≠ [])
    (hpkfk : ctx.pk_fk_columns.contains pk = true)
    (hassigned : assigned.contains pk = false)
    (hstatic : isStaticCol ctx.cfg pk = false)
    (hcol : ctx.tmeta.columns.find? (fun c => c.name = pk) = some cm)
    (hnn : cm.is_nullable = "NO") :
    ∀ (fks : List FKMeta) (acc : Row × PyRand),
      (∃ fk ∈ fks, fk.condition = none ∧ fk.column_name = pk) →
      Row.get (fks.foldl (uncondStep ctx assigned row_idx) acc).1 pk =
        (pre.get? row_idx).getD Value.vNull := by
  intro fks
  induction fks with
  | nil =>
    rintro acc ⟨fk, hmem, _⟩
    simp at hmem
  | cons fk₀ rest ih =>
    rintro acc ⟨fk, hmem, hfk⟩
    simp only [List.foldl_cons]
    rcases List.mem_cons.mp hmem with hEq | hmem₂
    · subst hEq
      exact uncondFold_keep ctx pk pre cm assigned row_idx hpre hne hpkfk
        hassigned hstatic hcol hnn rest _
        ((uncondStep_target ctx pk pre cm assigned row_idx hpre hne hpkfk
          hassigned hstatic hcol hnn acc fk).1 hfk)
    · exact ih _ ⟨fk, hmem₂, hfk⟩

/-- Under the single-PK pre-allocation hypotheses the resolved row
carries the pre-allocated PK value at its index. -/
theorem resolveRow_pk (ctx : ResolveCtx) (pk : String) (pre : List Value)
    (cm : ColumnMeta) (row_idx : Nat) (row : Row) (rng : PyRand)
    (hpre : ctx.pre_allocated_pk = some pre) (hne : pre ≠ [])
    (hpkfk : ctx.pk_fk_columns.contains pk = true)
    (hstatic : isStaticCol ctx.cfg pk = false)
    (hcol : ctx.tmeta.columns.find? (fun c => c.name = pk) = some cm)
    (hnn : cm.is_nullable = "NO")
    (hcond : ∀ c ∈ ctx.condCols, c ≠ pk)
    (huncond : ∃ fk ∈ ctx.nodeFks, fk.condition = none ∧ fk.column_name = pk) :
    Row.get (resolveRow ctx row_idx row rng).1 pk =
      (pre.get? row_idx).getD Value.vNull := by
  show Row.get (applyUnconditionalFks ctx
      (ctx.condCols.foldl (condColStep ctx) (row, [], rng)).2.1 row_idx
      (ctx.condCols.foldl (condColStep ctx) (row, [], rng)).1
      (ctx.condCols.foldl (condColStep ctx) (row, [], rng)).2.2).1 pk =
    (pre.get? row_idx).getD Value.vNull
  have hfold := condFold_pk ctx pk ctx.condCols (row, [], rng) hcond
  have hnotmem : pk ∉ (ctx.condCols.foldl (condColStep ctx) (row, [], rng)).2.1 := by
    intro hmem
    rcases hfold.2 pk hmem with h | h
    · simp at h
    · exact hcond pk h rfl
  have hass : ((ctx.condCols.foldl (condColStep ctx) (row, [], rng)).2.1).contains pk
      = false := by
    simpa [List.contains] using hnotmem
  rw [applyUnconditionalFks]
  exact uncondFold_target ctx pk pre cm _ row_idx hpre hne hpkfk hass hstatic
    hcol hnn ctx.nodeFks _ huncond

/-- The resolver loop maps every kept row to the pre-allocated PK value
at its enumeration index. -/
theorem resolveLoop_map (ctx : ResolveCtx) (pk : String) (pre : List Value)
    (cm : ColumnMeta)
    (hpre : ctx.pre_allocated_pk = some pre) (hne : pre ≠ [])
    (hpkfk : ctx.pk_fk_columns.contains pk = true)
    (hstatic : isStaticCol ctx.cfg pk = false)
    (hcol : ctx.tmeta.columns.find? (fun c => c.name = pk) = some cm)
    (hnn : cm.is_nullable = "NO")
    (hcond : ∀ c ∈ ctx.condCols, c ≠ pk)
    (huncond : ∃ fk ∈ ctx.nodeFks, fk.condition = none ∧ fk.column_name = pk) :
    ∀ (l : List (Nat × Row)) (acc : List Row × PyRand),
      (∀ p ∈ l, p.2 ≠ ([] : List (String × Value))) →
      ((l.foldl (resolveLoopStep ctx) acc).1).map (fun r => Row.get r pk) =
        acc.1.map (fun r => Row.get r pk) ++
          l.map (fun p => (pre.get? p.1).getD Value.vNull) := by
  intro l
  induction l with
  | nil => intro acc h; simp
  | cons p rest ih =>
    intro acc h
    obtain ⟨res₀, rng₀⟩ := acc
    simp only [List.foldl_cons, List.map_cons]
    have hp : p.2 ≠ ([] : List (String × Value)) := h p (by simp)
    have hstep : resolveLoopStep ctx (res₀, rng₀) p =
        (res₀ ++ [(resolveRow ctx p.1 p.2 rng₀).1],
          (resolveRow ctx p.1 p.2 rng₀).2) := by
      simp only [resolveLoopStep]
      rw [if_neg hp]
    rw [ih _ (fun q hq => h q (by simp [hq])), hstep]
    simp only [List.map_append, List.map_cons, List.map_nil]
    rw [resolveRow_pk ctx pk pre cm p.1 p.2 rng₀ hpre hne hpkfk hstatic hcol
      hnn hcond huncond]
    simp [List.append_assoc]

/-- Reading a list back through `get?` over its index range is the
identity. -/
theorem map_range_getD {α : Type} (d : α) :
    ∀ (l : List α),
      (List.range l.length).map (fun i => (l.get? i).getD d) = l := by
  intro l
  induction l with
  | nil => simp
  | cons a tl ih =>
    rw [List.length_cons, List.range_succ_eq_map, List.map_cons, List.map_map]
    simp only [List.get?_cons_zero, Option.getD_some]
    have : ((fun i => ((a :: tl).get? i).getD d) ∘ (fun i => i + 1)) =
        (fun i => (tl.get? i).getD d) := by
      funext i
      simp [List.get?_cons_succ]
    rw [this, ih]

/-- On the single-column-PK-FK domain without composite FKs,
`resolve_fks_batch` follows the spelled-out path. -/
theorem resolve_single_pk_eq (self : GenSelf) (node : String)
    (tmeta : TableMeta) (cfg : Option TableCfg)
    (generated_rows : List (String × List Row)) (mainRng : PyRand)
    (pk : String)
    (hpk : tmeta.pk_columns = [pk])
    (hfk : ((alookup self.fk_columns node).getD []).contains pk = true)
    (hcomp : self.logical_composite_fks.filter
      (fun comp => comp.table_schema ++ "." ++ comp.table_name = node) = [])
    (hr0 : (alookup generated_rows node).getD [] ≠ ([] : List Row)) :
    resolve_fks_batch self node tmeta cfg generated_rows mainRng =
      some (resolveSinglePkPath self node tmeta cfg generated_rows mainRng pk) := by
  simp only [resolve_fks_batch, resolveSinglePkPath, singlePkCtx,
    singlePkRows₂, hpk, nodeFksOf, parentCacheOf]
  rw [if_neg hr0]
  rw [if_neg (by simp [hcomp])]
  rw [if_neg (by simp)]
  simp only [List.filter_cons, List.filter_nil, hfk, if_true]
  simp [List.contains, List.elem_cons]

/-- The spelled-out single-PK path keeps `min(N, D)` rows, assigns
pairwise-distinct PK values drawn from the distinct non-null parent
values, and warns exactly on truncation. -/
theorem resolveSinglePkPath_spec (self : GenSelf) (node : String)
    (tmeta : TableMeta) (cfg : Option TableCfg)
    (generated_rows : List (String × List Row)) (mainRng : PyRand)
    (pk : String) (cm : ColumnMeta)
    (hstatic : isStaticCol cfg pk = false)
    (hcol : tmeta.columns.find? (fun c => c.name = pk) = some cm)
    (hnn : cm.is_nullable = "NO")
    (hnocond : ∀ fk ∈ nodeFksOf self node, fk.condition.isSome →
      fk.column_name ≠ pk)
    (huncond : ∃ fk ∈ nodeFksOf self node,
      fk.condition = none ∧ fk.column_name = pk)
    (hrows : ∀ r ∈ (alookup generated_rows node).getD ([] : List Row),
      r ≠ ([] : List (String × Value))) :
    (resolveSinglePkPath self node tmeta cfg generated_rows mainRng pk).1.length
        = min ((alookup generated_rows node).getD ([] : List Row)).length
            (dedupFirst (parentCacheOf self node generated_rows pk)).length ∧
      ((resolveSinglePkPath self node tmeta cfg generated_rows mainRng
          pk).1.map (fun r => Row.get r pk)).Nodup ∧
      (∀ r ∈ (resolveSinglePkPath self node tmeta cfg generated_rows mainRng
          pk).1,
        Row.get r pk ∈ dedupFirst (parentCacheOf self node generated_rows pk)) ∧
      (resolveSinglePkPath self node tmeta cfg generated_rows mainRng pk).2.1
        = decide
            ((dedupFirst (parentCacheOf self node generated_rows pk)).length <
              ((alookup generated_rows node).getD ([] : List Row)).length) := by
  have hperm := pyShuffleL_perm mainRng
    (dedupFirst (parentCacheOf self node generated_rows pk))
  have hshuflen := hperm.length_eq
  have hr2len : (singlePkRows₂ self node generated_rows pk).length =
      min ((alookup generated_rows node).getD ([] : List Row)).length
        (dedupFirst (parentCacheOf self node generated_rows pk)).length := by
    simp only [singlePkRows₂]
    by_cases h : (dedupFirst (parentCacheOf self node generated_rows
        pk)).length < ((alookup generated_rows node).getD ([] : List Row)).length
    · rw [if_pos h, List.length_take]
      omega
    · rw [if_neg h]
      omega
  have hprelen : ((pyShuffleL mainRng (dedupFirst (parentCacheOf self node
      generated_rows pk))).1.take
        (singlePkRows₂ self node generated_rows pk).length).length =
      (singlePkRows₂ self node generated_rows pk).length := by
    rw [List.length_take]
    omega
  have hpkfk : ((singlePkCtx self node tmeta cfg generated_rows mainRng
      pk).pk_fk_columns).contains pk = true := by
    simp [singlePkCtx, List.contains]
  have hcondCols : ∀ c ∈ (singlePkCtx self node tmeta cfg generated_rows
      mainRng pk).condCols, c ≠ pk := by
    intro c hc
    simp only [singlePkCtx] at hc
    have hc₂ := dedupFirst_subset _ c hc
    rcases List.mem_map.mp hc₂ with ⟨fk, hfkmem, hfkc⟩
    have hsp := List.mem_filter.mp hfkmem
    rw [← hfkc]
    exact hnocond fk hsp.1 hsp.2
  have huncond₂ : ∃ fk ∈ (singlePkCtx self node tmeta cfg generated_rows
      mainRng pk).nodeFks, fk.condition = none ∧ fk.column_name = pk := huncond
  have henum : ∀ p ∈ (singlePkRows₂ self node generated_rows pk).enum,
      p.2 ≠ ([] : List (String × Value)) := by
    intro p hp
    have hmem : p.2 ∈ singlePkRows₂ self node generated_rows pk := by
      have := List.mem_map_of_mem Prod.snd hp
      rwa [List.enum_map_snd] at this
    have hsub : p.2 ∈ (alookup generated_rows node).getD ([] : List Row) := by
      simp only [singlePkRows₂] at hmem
      split at hmem
      · exact List.take_subset _ _ hmem
      · exact hmem
    exact hrows _ hsub
  by_cases hr2 : singlePkRows₂ self node generated_rows pk = []
  · have hres : (resolveSinglePkPath self node tmeta cfg generated_rows
        mainRng pk).1 = [] := by
      simp [resolveSinglePkPath, hr2]
    refine ⟨?_, ?_, ?_, rfl⟩
    · rw [hres, ← hr2len, hr2]
    · rw [hres]
      simp
    · rw [hres]
      intro r hr
      simp at hr
  · have hpre_ne : ((pyShuffleL mainRng (dedupFirst (parentCacheOf self node
        generated_rows pk))).1.take
          (singlePkRows₂ self node generated_rows pk).length) ≠ [] := by
      intro h
      have hl := congrArg List.length h
      rw [hprelen] at hl
      simp only [List.length_nil] at hl
      exact hr2 (List.length_eq_zero.mp hl)
    have hmap := resolveLoop_map (singlePkCtx self node tmeta cfg
        generated_rows mainRng pk) pk
        ((pyShuffleL mainRng (dedupFirst (parentCacheOf self node
          generated_rows pk))).1.take
            (singlePkRows₂ self node generated_rows pk).length) cm rfl hpre_ne
        hpkfk hstatic hcol hnn hcondCols huncond₂
        ((singlePkRows₂ self node generated_rows pk).enum)
        ([], (pyShuffleL mainRng (dedupFirst (parentCacheOf self node
          generated_rows pk))).2) henum
    have hres_map : ((resolveSinglePkPath self node tmeta cfg generated_rows
        mainRng pk).1).map (fun r => Row.get r pk) =
        (pyShuffleL mainRng (dedupFirst (parentCacheOf self node
          generated_rows pk))).1.take
            (singlePkRows₂ self node generated_rows pk).length := by
      have h₁ : (resolveSinglePkPath self node tmeta cfg generated_rows
          mainRng pk).1 =
          (((singlePkRows₂ self node generated_rows pk).enum).foldl
            (resolveLoopStep (singlePkCtx self node tmeta cfg generated_rows
              mainRng pk))
            ([], (pyShuffleL mainRng (dedupFirst (parentCacheOf self node
              generated_rows pk))).2)).1 := rfl
      rw [h₁, hmap, List.map_nil, List.nil_append]
      have h₂ : ((singlePkRows₂ self node generated_rows pk).enum).map
          (fun p => (((pyShuffleL mainRng (dedupFirst (parentCacheOf self
            node generated_rows pk))).1.take
              (singlePkRows₂ self node generated_rows pk).length).get?
            p.1).getD Value.vNull) =
          (((singlePkRows₂ self node generated_rows pk).enum).map
            Prod.fst).map
            (fun i => (((pyShuffleL mainRng (dedupFirst (parentCacheOf self
              node generated_rows pk))).1.take
                (singlePkRows₂ self node generated_rows pk).length).get?
              i).getD Value.vNull) := by
        rw [List.map_map]
        rfl
      rw [h₂, List.enum_map_fst]
      nth_rewrite 2 [← hprelen]
      exact map_range_getD Value.vNull _
    have hshufnodup : (pyShuffleL mainRng (dedupFirst (parentCacheOf self
        node generated_rows pk))).1.Nodup :=
      (hperm.nodup_iff).mpr (dedupFirst_nodup _)
    refine ⟨?_, ?_, ?_, rfl⟩
    · have hl := congrArg List.length hres_map
      rw [List.length_map, hprelen, hr2len] at hl
      exact hl
    · rw [hres_map]
      exact (List.take_sublist _ _).nodup hshufnodup
    · intro r hr
      have hm : Row.get r pk ∈ ((resolveSinglePkPath self node tmeta cfg
          generated_rows mainRng pk).1).map (fun r => Row.get r pk) :=
        List.mem_map_of_mem _ hr
      rw [hres_map] at hm
      exact hperm.subset (List.take_subset _ _ hm)

/-- C6 (amended): for a table whose primary key is a single column `pk`
that is also an FK column, *provided* the per-row loop actually consumes
the pre-allocated values — no composite FKs on the table, an
unconditional FK on `pk`, `pk` declared NOT NULL and not a static-FK
column, no conditional FK on `pk`, and no empty generated rows —
`resolve_fks_batch` returns `min(N, D)` rows whose `pk` values are
pairwise distinct and drawn from the `D` distinct non-null parent
values, and warns exactly when `D < N`.  Without the unconditional-FK
proviso the claimed distinctness fails (see the counterexample). -/
theorem C6_single_pk_fk_preallocation
    (self : GenSelf) (node : String) (tmeta : TableMeta)
    (cfg : Option TableCfg) (generated_rows : List (String × List Row))
    (mainRng : PyRand) (pk : String) (cm : ColumnMeta)
    (hpk : tmeta.pk_columns = [pk])
    (hfk : ((alookup self.fk_columns node).getD []).contains pk = true)
    (hcomp : self.logical_composite_fks.filter
      (fun comp => comp.table_schema ++ "." ++ comp.table_name = node) = [])
    (hstatic : isStaticCol cfg pk = false)
    (hcol : tmeta.columns.find? (fun c => c.name = pk) = some cm)
    (hnn : cm.is_nullable = "NO")
    (hnocond : ∀ fk ∈ nodeFksOf self node, fk.condition.isSome →
      fk.column_name ≠ pk)
    (huncond : ∃ fk ∈ nodeFksOf self node,
      fk.condition = none ∧ fk.column_name = pk)
    (hrows : ∀ r ∈ (alookup generated_rows node).getD ([] : List Row),
      r ≠ ([] : List (String × Value))) :
    ∃ res warn rng₂,
      resolve_fks_batch self node tmeta cfg generated_rows mainRng =
          some (res, warn, rng₂) ∧
        res.length =
          min ((alookup generated_rows node).getD ([] : List Row)).length
            (dedupFirst (parentCacheOf self node generated_rows pk)).length ∧
        (res.map (fun r => Row.get r pk)).Nodup ∧
        (∀ r ∈ res,
          Row.get r pk ∈
            dedupFirst (parentCacheOf self node generated_rows pk)) ∧
        warn = decide
          ((dedupFirst (parentCacheOf self node generated_rows pk)).length <
            ((alookup generated_rows node).getD ([] : List Row)).length) := by
  by_cases hr0 : (alookup generated_rows node).getD ([] : List Row) = []
  · refine ⟨[], false, mainRng, ?_, ?_, ?_, ?_, ?_⟩
    · simp only [resolve_fks_batch]
      rw [if_pos hr0, hr0]
    · rw [hr0]
      simp
    · simp
    · intro r hr
      simp at hr
    · rw [hr0]
      simp
  · have heq := resolve_single_pk_eq self node tmeta cfg generated_rows
      mainRng pk hpk hfk hcomp hr0
    have hspec := resolveSinglePkPath_spec self node tmeta cfg generated_rows
      mainRng pk cm hstatic hcol hnn hnocond huncond hrows
    exact ⟨_, _, _, heq, hspec.1, hspec.2.1, hspec.2.2.1, hspec.2.2.2⟩

/-- C6 witness: the amended theorem at the concrete instance — parent
values `{1, 2}` (`D = 2`), three child rows (`N = 3`): two rows with
distinct PK values survive and the truncation warning fires. -/
theorem C6_single_pk_fk_witness :
    ∃ res warn rng₂,
      resolve_fks_batch c6wself "db.K" c6ktmeta none c6wrows ⟨[0, 0, 0, 0]⟩ =
          some (res, warn, rng₂) ∧
        res.length =
          min ((alookup c6wrows "db.K").getD ([] : List Row)).length
            (dedupFirst (parentCacheOf c6wself "db.K" c6wrows "k")).length ∧
        (res.map (fun r => Row.get r "k")).Nodup ∧
        (∀ r ∈ res,
          Row.get r "k" ∈
            dedupFirst (parentCacheOf c6wself "db.K" c6wrows "k")) ∧
        warn = decide
          ((dedupFirst (parentCacheOf c6wself "db.K" c6wrows "k")).length <
            ((alookup c6wrows "db.K").getD ([] : List Row)).length) :=
  C6_single_pk_fk_preallocation c6wself "db.K" c6ktmeta none c6wrows
    ⟨[0, 0, 0, 0]⟩ "k" { name := "k", data_type := "int", is_nullable := "NO" }
    (by decide) (by decide) (by decide) (by decide) (by decide) (by decide)
    (by decide)
    ⟨{ constraint_name := "fk_k", table_schema := "db", table_name := "K",
       column_name := "k", referenced_table_schema := "db",
       referenced_table_name := "P6", referenced_column_name := "id",
       is_logical := false, condition := none }, by decide, by decide,
      by decide⟩
    (by decide)

/-- C6 counterexample: child `db.M` has a single-column PK `m` that *is*
an FK column, but its only FK is conditional — `resolve_fks_batch` then
draws each row's `m` independently from the conditional cache
(lines 1326-1340) instead of the pre-allocated distinct values, and both
returned rows get `m = 5`: the assigned PK values are not pairwise
distinct, refuting the claim. -/
theorem C6_counterexample_conditional_fk_on_pk :
    (resolve_fks_batch c6cself "db.M" c6mtmeta none c6crows
        ⟨[0, 0, 0, 0]⟩).map
        (fun res => res.1.map (fun r => Row.get r "m")) =
      some [Value.vInt 5, Value.vInt 5] ∧
    c6mtmeta.pk_columns = ["m"] ∧
    ((alookup c6cself.fk_columns "db.M").getD []).contains "m" = true := by
  refine ⟨by decide, by decide, by decide⟩

/-- One `generate_parallel` step on the modelled (non-threaded) branch
does not consult the `as_completed` collection order. -/
theorem genParStep_small (self : GenSelf) (mkStream : Int → List Nat)
    (pyHash : String → Int)
    (comp₁ comp₂ : List (List Row) → List (List Row))
    (rows_per_table : List (String × Int)) (node : String)
    (acc : List (String × List Row) × SharedState × PyRand)
    (hsmall : (alookup rows_per_table node).getD
        self.default_rows_per_table < 1000 ∨ self.threads = 1) :
    genParStep self mkStream pyHash comp₁ rows_per_table (some acc) node =
      genParStep self mkStream pyHash comp₂ rows_per_table (some acc) node ∧
    (genParStep self mkStream pyHash comp₁ rows_per_table
      (some acc) node).isSome = true := by
  obtain ⟨gen, st, rng⟩ := acc
  cases hm : alookup self.metadata node with
  | none =>
    simp only [genParStep, hm]
    exact ⟨by trivial, by trivial⟩
  | some tmeta =>
    simp only [genParStep, hm]
    rw [if_pos hsmall]
    exact ⟨by trivial, by trivial⟩

/-- Folding `generate_parallel` over an order of non-threaded tables
succeeds and is independent of the collection order. -/
theorem genParFold_small (self : GenSelf) (mkStream : Int → List Nat)
    (pyHash : String → Int)
    (comp₁ comp₂ : List (List Row) → List (List Row))
    (rows_per_table : List (String × Int)) :
    ∀ (order : List String)
      (acc : List (String × List Row) × SharedState × PyRand),
      (∀ node ∈ order, (alookup rows_per_table node).getD
        self.default_rows_per_table < 1000 ∨ self.threads = 1) →
      (order.foldl (genParStep self mkStream pyHash comp₁ rows_per_table)
          (some acc)) =
        (order.foldl (genParStep self mkStream pyHash comp₂ rows_per_table)
          (some acc)) ∧
      (order.foldl (genParStep self mkStream pyHash comp₁ rows_per_table)
        (some acc)).isSome = true := by
  intro order
  induction order with
  | nil => intro acc _; exact ⟨rfl, rfl⟩
  | cons node rest ih =>
    intro acc hsmall
    simp only [List.foldl_cons]
    obtain ⟨hstep, hstepsome⟩ := genParStep_small self mkStream pyHash
      comp₁ comp₂ rows_per_table node acc (hsmall node (by simp))
    rw [← hstep]
    obtain ⟨acc₂, hacc₂⟩ := Option.isSome_iff_exists.mp hstepsome
    rw [hacc₂]
    exact ih acc₂ (fun n hn => hsmall n (by simp [hn]))

/-- C7 (amended): with the interpreter's string-hash salt held fixed
(the same `pyHash`) and identical seed, configuration, catalog snapshot
and worker count, a run in which every table takes the non-threaded
branch (fewer than 1000 requested rows, or a single worker —
line 744) produces *identical* per-table row lists, shared state and
tape across runs: on this path the `as_completed` collection order, the
one remaining modelled source of run-to-run variation, is never
consulted.  Without fixing the salt the determinism claim fails even on
this path (see the counterexample), and the threaded branch is outside
the embedding: its worker chunks draw from the shared counters, pools
and PK sequences in a scheduling-dependent lock order that can change
the row multiset itself. -/
theorem C7_single_thread_determinism (self : GenSelf)
    (mkStream : Int → List Nat) (pyHash : String → Int)
    (comp₁ comp₂ : List (List Row) → List (List Row))
    (order : List String) (rows_per_table : List (String × Int))
    (st₀ : SharedState) (rng₀ : PyRand)
    (hsmall : ∀ node ∈ order, (alookup rows_per_table node).getD
        self.default_rows_per_table < 1000 ∨ self.threads = 1) :
    ∃ res,
      generate_parallel self mkStream pyHash comp₁ order rows_per_table
          st₀ rng₀ = some res ∧
        generate_parallel self mkStream pyHash comp₂ order rows_per_table
          st₀ rng₀ = some res := by
  obtain ⟨heq, hsome⟩ := genParFold_small self mkStream pyHash comp₁
    comp₂ rows_per_table order ([], st₀, rng₀) hsmall
  obtain ⟨res, hres⟩ := Option.isSome_iff_exists.mp hsome
  refine ⟨res, hres, ?_⟩
  show order.foldl (genParStep self mkStream pyHash comp₂ rows_per_table)
    (some ([], st₀, rng₀)) = some res
  rw [← heq]
  exact hres

/-- C7 witness: the amended theorem at the concrete single-table
instance, with the identity and the reversing collection orders. -/
theorem C7_single_thread_determinism_witness :
    ∃ res,
      generate_parallel c7self (fun s => [s.toNat]) (fun _ => 0) id
          ["db.H"] (rowsPerTable c7self ["db.H"]) {} ⟨[]⟩ = some res ∧
        generate_parallel c7self (fun s => [s.toNat]) (fun _ => 0)
          List.reverse ["db.H"] (rowsPerTable c7self ["db.H"]) {} ⟨[]⟩ =
          some res :=
  C7_single_thread_determinism c7self (fun s => [s.toNat]) (fun _ => 0) id
    List.reverse ["db.H"] (rowsPerTable c7self ["db.H"]) {} ⟨[]⟩
    (by decide)

/-- C7 counterexample: two runs with identical seed, configuration,
catalog snapshot and worker count — the single table even takes the
deterministic non-threaded branch — but different interpreter hash
salts (`hash("db.H")` returning 0 vs 1, as Python's salted string
hash does across processes) produce different rows: the determinism
claim fails because `generate_parallel` seeds each table's generator
with `self.args.seed + hash(node)` (line 745). -/
theorem C7_counterexample_salted_hash :
    (generate_parallel c7self (fun s => [s.toNat]) (fun _ => 0) id ["db.H"]
        (rowsPerTable c7self ["db.H"]) {} ⟨[]⟩).map (fun r => r.1) ≠
      (generate_parallel c7self (fun s => [s.toNat]) (fun _ => 1) id
        ["db.H"] (rowsPerTable c7self ["db.H"]) {} ⟨[]⟩).map
        (fun r => r.1) ∧
    (generate_parallel c7self (fun s => [s.toNat]) (fun _ => 0) id ["db.H"]
        (rowsPerTable c7self ["db.H"]) {} ⟨[]⟩).map (fun r => r.1) =
      some [("db.H", [[("h", Value.vInt 42)]])] ∧
    (generate_parallel c7self (fun s => [s.toNat]) (fun _ => 1) id ["db.H"]
        (rowsPerTable c7self ["db.H"]) {} ⟨[]⟩).map (fun r => r.1) =
      some [("db.H", [[("h", Value.vInt 43)]])] := by
  refine ⟨by decide, by decide, by decide⟩

/-- A single-threaded `ThreadLocalCounter` hands out its peek value and
advances by one. -/
theorem TLC.next_sim (t : TLC) (h : t.wf) :
    t.next.1 = t.peek ∧ (t.next.2).wf ∧ (t.next.2).peek = t.peek + 1 := by
  obtain ⟨hsize, hinv⟩ := h
  obtain ⟨g, size, bs, be, cur⟩ := t
  cases bs with
  | none =>
    simp only [TLC.wf] at hsize
    simp [TLC.next, TLC.allocate, TLC.peek, TLC.wf]
    split
    all_goals dsimp only
    all_goals refine ⟨⟨hsize, fun _ => ⟨by omega, by omega⟩⟩, by omega⟩
  | some b =>
    obtain ⟨hcur, hbe⟩ := hinv (by simp)
    simp only [TLC.wf] at hsize hcur hbe
    simp [TLC.next, TLC.allocate, TLC.peek, TLC.wf]
    split
    all_goals dsimp only
    all_goals refine ⟨⟨hsize, fun _ => ⟨by omega, by omega⟩⟩, by omega⟩

/-- One sequential-counter draw keeps the counter correspondence. -/
theorem countersSim_step (vgc : List (String × TLC)) (mc : List (String × Nat))
    (h : countersSim vgc mc) (k : String) :
    ((alookup vgc k).getD {}).next.1 = (alookup mc k).getD 0 ∧
      countersSim (aset vgc k ((alookup vgc k).getD {}).next.2)
        (aset mc k ((alookup mc k).getD 0 + 1)) := by
  obtain ⟨hwf, hpeek⟩ := h k
  have hn := TLC.next_sim _ hwf
  refine ⟨by rw [hn.1, hpeek], ?_⟩
  intro k₂
  by_cases hk : k₂ = k
  · subst hk
    rw [alookup_aset_self, alookup_aset_self]
    simp only [Option.getD_some]
    exact ⟨hn.2.1, by rw [hn.2.2, hpeek]⟩
  · rw [alookup_aset_other _ _ _ _ (fun hEq => hk hEq.symm),
      alookup_aset_other _ _ _ _ (fun hEq => hk hEq.symm)]
    exact h k₂

/-- With no conditional FKs the modular sequential-column classification
coincides with the monolith's. -/
theorem vgColsNeedingSequential_no_disc (tmeta : TableMeta)
    (comp : List UniqueConstraint) (pc : List (String × ColConfig))
    (fk_cols : List String) :
    vgColsNeedingSequential tmeta comp pc fk_cols [] =
      colsNeedingSequential comp pc fk_cols tmeta.pk_columns := by
  simp only [vgColsNeedingSequential, colsNeedingSequential]
  congr 1
  funext acc uc
  simp [List.contains]

/-- On the common domain one column step of the modular generator
matches the monolith: equal row and tape, equal pools, corresponding
counters, and the monolith never touches the PK sequence map. -/
theorem processColumn_equiv (env : GenEnv) (preM : BatchPre) (preV : VGPre)
    (h1 : preV.single_unique_cols = preM.single_unique_cols)
    (h2 : preV.seq_cols = preM.seq_cols)
    (h3 : preV.pools_cols = preM.pools_cols)
    (hdisc : preV.disc_cols = [])
    (hforced : env.forced_explicit = false)
    (batch_idx : Nat) (col : ColumnMeta)
    (hskip : ¬ skipsNullable env preM col)
    (row : Row) (stM : SharedState) (stV : VGState) (rng : PyRand)
    (hpools : stV.global_unique_value_pools = stM.global_unique_value_pools)
    (hctr : countersSim stV.composite_unique_counters
      stM.composite_unique_counters) :
    (vgProcessColumn env preV batch_idx col row stV rng).1 =
        (processColumnFast env preM batch_idx col row stM rng).1 ∧
      (vgProcessColumn env preV batch_idx col row stV rng).2.2 =
        (processColumnFast env preM batch_idx col row stM rng).2.2 ∧
      (vgProcessColumn env preV batch_idx col row stV
          rng).2.1.global_unique_value_pools =
        (processColumnFast env preM batch_idx col row stM
          rng).2.1.global_unique_value_pools ∧
      countersSim
        (vgProcessColumn env preV batch_idx col row stV
          rng).2.1.composite_unique_counters
        (processColumnFast env preM batch_idx col row stM
          rng).2.1.composite_unique_counters ∧
      (processColumnFast env preM batch_idx col row stM rng).2.1.pk_next_vals
        = stM.pk_next_vals := by
  simp only [vgProcessColumn, processColumnFast, vgHandleSequential,
    vgHandlePool, vgDefaultValue, processColumnDefault, h1, h2, h3, hdisc]
  by_cases hauto : (env.tmeta.pk_columns.contains col.name = true ∧
      env.tmeta.auto_increment = true)
  · rw [if_pos hauto,
      if_pos (show env.tmeta.pk_columns.contains col.name = true ∧
          env.tmeta.auto_increment = true ∧ ¬ env.forced_explicit = true from
        ⟨hauto.1, hauto.2, by simp [hforced]⟩)]
    exact ⟨by trivial, by trivial, hpools, hctr, by trivial⟩
  · rw [if_neg hauto,
      if_neg (show ¬ (env.tmeta.pk_columns.contains col.name = true ∧
          env.tmeta.auto_increment = true ∧ ¬ env.forced_explicit = true) from
        fun h => hauto ⟨h.1, h.2.1⟩)]
    cases hst : staticHitFor env.cfg col.name with
    | some sf =>
      simp only [hst]
      exact ⟨by trivial, by trivial, hpools, hctr, by trivial⟩
    | none =>
      simp only [hst]
      by_cases hfk : env.fk_cols.contains col.name = true
      · rw [if_pos (show env.fk_cols.contains col.name = true ∧
            ¬ ([] : List String).contains col.name = true from ⟨hfk, by simp⟩),
          if_pos hfk]
        exact ⟨by trivial, by trivial, hpools, hctr, by trivial⟩
      · rw [if_neg (show ¬ (env.fk_cols.contains col.name = true ∧
            ¬ ([] : List String).contains col.name = true) from
            fun h => hfk h.1),
          if_neg hfk]
        by_cases hseq : preM.seq_cols.contains col.name = true
        · rw [if_pos hseq, if_pos hseq]
          have hkey := countersSim_step stV.composite_unique_counters
            stM.composite_unique_counters hctr (env.node ++ "." ++ col.name)
          refine ⟨by rw [hkey.1], by trivial, ?_, ?_, by trivial⟩
          · simp [VGState.setCounter, SharedState.setCounter, hpools]
          · simp only [VGState.setCounter, SharedState.setCounter]
            exact hkey.2
        · rw [if_neg hseq, if_neg hseq, if_neg hskip]
          by_cases hpc : preM.pools_cols.contains col.name = true
          · rw [if_pos hpc, if_pos hpc]
            rw [hpools]
            cases hpd : alookup stM.global_unique_value_pools
                (env.node ++ "." ++ col.name) with
            | some pd =>
              simp only [hpd]
              by_cases hcur : pd.cursor < pd.size
              · rw [if_pos hcur, if_pos hcur]
                refine ⟨by trivial, by trivial, ?_, ?_, by trivial⟩
                · simp [VGState.setPool, SharedState.setPool, hpools]
                · simp only [VGState.setPool, SharedState.setPool]
                  exact hctr
              · rw [if_neg hcur, if_neg hcur]
                exact ⟨by trivial, by trivial, hpools, hctr, by trivial⟩
            | none =>
              simp only [hpd]
              exact ⟨by trivial, by trivial, hpools, hctr, by trivial⟩
          · rw [if_neg hpc, if_neg hpc]
            cases hcc : alookup env.populate_config col.name with
            | some cc =>
              simp only [hcc]
              by_cases hval : (cc.values.isSome || cc.minV.isSome) = true
              · rw [if_pos hval, if_pos hval]
                by_cases hsuf : (preM.single_unique_cols.contains col.name
                    = true ∧ isStrType (strToLower col.data_type) = true ∧
                    (generate_value_with_config rng col cc).1 ≠ Value.vNull)
                · rw [if_pos hsuf, if_pos hsuf]
                  exact ⟨by trivial, by trivial, hpools, hctr, by trivial⟩
                · rw [if_neg hsuf, if_neg hsuf]
                  exact ⟨by trivial, by trivial, hpools, hctr, by trivial⟩
              · rw [if_neg hval, if_neg hval]
                exact ⟨by trivial, by trivial, hpools, hctr, by trivial⟩
            | none =>
              simp only [hcc]
              exact ⟨by trivial, by trivial, hpools, hctr, by trivial⟩

/-- The column fold of one row matches between the two generators. -/
theorem processFold_equiv (env : GenEnv) (preM : BatchPre) (preV : VGPre)
    (h1 : preV.single_unique_cols = preM.single_unique_cols)
    (h2 : preV.seq_cols = preM.seq_cols)
    (h3 : preV.pools_cols = preM.pools_cols)
    (hdisc : preV.disc_cols = [])
    (hforced : env.forced_explicit = false) (batch_idx : Nat) :
    ∀ (cols : List ColumnMeta) (row : Row) (stM : SharedState) (stV : VGState)
      (rng : PyRand),
      (∀ col ∈ cols, ¬ skipsNullable env preM col) →
      stV.global_unique_value_pools = stM.global_unique_value_pools →
      countersSim stV.composite_unique_counters stM.composite_unique_counters →
      (cols.foldl (fun (acc : Row × VGState × PyRand) col =>
          vgProcessColumn env preV batch_idx col acc.1 acc.2.1 acc.2.2)
          (row, stV, rng)).1 =
        (cols.foldl (fun (acc : Row × SharedState × PyRand) col =>
          processColumnFast env preM batch_idx col acc.1 acc.2.1 acc.2.2)
          (row, stM, rng)).1 ∧
      (cols.foldl (fun (acc : Row × VGState × PyRand) col =>
          vgProcessColumn env preV batch_idx col acc.1 acc.2.1 acc.2.2)
          (row, stV, rng)).2.2 =
        (cols.foldl (fun (acc : Row × SharedState × PyRand) col =>
          processColumnFast env preM batch_idx col acc.1 acc.2.1 acc.2.2)
          (row, stM, rng)).2.2 ∧
      (cols.foldl (fun (acc : Row × VGState × PyRand) col =>
          vgProcessColumn env preV batch_idx col acc.1 acc.2.1 acc.2.2)
          (row, stV, rng)).2.1.global_unique_value_pools =
        (cols.foldl (fun (acc : Row × SharedState × PyRand) col =>
          processColumnFast env preM batch_idx col acc.1 acc.2.1 acc.2.2)
          (row, stM, rng)).2.1.global_unique_value_pools ∧
      countersSim
        (cols.foldl (fun (acc : Row × VGState × PyRand) col =>
          vgProcessColumn env preV batch_idx col acc.1 acc.2.1 acc.2.2)
          (row, stV, rng)).2.1.composite_unique_counters
        (cols.foldl (fun (acc : Row × SharedState × PyRand) col =>
          processColumnFast env preM batch_idx col acc.1 acc.2.1 acc.2.2)
          (row, stM, rng)).2.1.composite_unique_counters ∧
      (cols.foldl (fun (acc : Row × SharedState × PyRand) col =>
          processColumnFast env preM batch_idx col acc.1 acc.2.1 acc.2.2)
          (row, stM, rng)).2.1.pk_next_vals = stM.pk_next_vals := by
  intro cols
  induction cols with
  | nil =>
    intro row stM stV rng hsk hpools hctr
    exact ⟨rfl, rfl, hpools, hctr, rfl⟩
  | cons col rest ih =>
    intro row stM stV rng hsk hpools hctr
    simp only [List.foldl_cons]
    obtain ⟨hrow, hrng, hp, hs, hpk⟩ := processColumn_equiv env preM preV h1
      h2 h3 hdisc hforced batch_idx col (hsk col (by simp)) row stM stV rng
      hpools hctr
    have hrec := ih (vgProcessColumn env preV batch_idx col row stV rng).1
      (processColumnFast env preM batch_idx col row stM rng).2.1
      (vgProcessColumn env preV batch_idx col row stV rng).2.1
      (vgProcessColumn env preV batch_idx col row stV rng).2.2
      (fun c hc => hsk c (by simp [hc])) hp hs
    have hacc : ((vgProcessColumn env preV batch_idx col row stV rng).1,
        (processColumnFast env preM batch_idx col row stM rng).2.1,
        (vgProcessColumn env preV batch_idx col row stV rng).2.2) =
        processColumnFast env preM batch_idx col row stM rng := by
      rw [hrow, hrng]
    rw [hacc] at hrec
    exact ⟨hrec.1, hrec.2.1, hrec.2.2.1, hrec.2.2.2.1, hrec.2.2.2.2.trans hpk⟩

/-- One generated row matches between the two generators when the PK
sequence map has no entry for the node. -/
theorem genRow_equiv (env : GenEnv) (preM : BatchPre) (preV : VGPre)
    (h1 : preV.single_unique_cols = preM.single_unique_cols)
    (h2 : preV.seq_cols = preM.seq_cols)
    (h3 : preV.pools_cols = preM.pools_cols)
    (hdisc : preV.disc_cols = [])
    (hforced : env.forced_explicit = false) (batch_idx : Nat)
    (stM : SharedState) (stV : VGState) (rng : PyRand)
    (hsk : ∀ col ∈ env.tmeta.columns, ¬ skipsNullable env preM col)
    (hpools : stV.global_unique_value_pools = stM.global_unique_value_pools)
    (hctr : countersSim stV.composite_unique_counters
      stM.composite_unique_counters)
    (hpk : alookup stM.pk_next_vals env.node = none) :
    (vgGenRow env preV batch_idx stV rng).1 =
        (genRowFast env preM batch_idx stM rng).1 ∧
      (vgGenRow env preV batch_idx stV rng).2.2 =
        (genRowFast env preM batch_idx stM rng).2.2 ∧
      (vgGenRow env preV batch_idx stV rng).2.1.global_unique_value_pools =
        (genRowFast env preM batch_idx stM rng).2.1.global_unique_value_pools ∧
      countersSim
        (vgGenRow env preV batch_idx stV rng).2.1.composite_unique_counters
        (genRowFast env preM batch_idx stM rng).2.1.composite_unique_counters ∧
      (genRowFast env preM batch_idx stM rng).2.1.pk_next_vals =
        stM.pk_next_vals := by
  have hfold := processFold_equiv env preM preV h1 h2 h3 hdisc hforced
    batch_idx env.tmeta.columns [] stM stV rng hsk hpools hctr
  have hlook : alookup
      ((env.tmeta.columns.foldl (fun (acc : Row × SharedState × PyRand) col =>
        processColumnFast env preM batch_idx col acc.1 acc.2.1 acc.2.2)
        ([], stM, rng)).2.1).pk_next_vals env.node = none := by
    rw [hfold.2.2.2.2, hpk]
  simp only [vgGenRow, genRowFast, hlook]
  exact ⟨hfold.1, hfold.2.1, hfold.2.2.1, hfold.2.2.2.1, hfold.2.2.2.2⟩

/-- One batch-loop iteration matches between the generators. -/
theorem batchStep_equiv (env : GenEnv) (preM : BatchPre) (preV : VGPre)
    (h1 : preV.single_unique_cols = preM.single_unique_cols)
    (h2 : preV.seq_cols = preM.seq_cols)
    (h3 : preV.pools_cols = preM.pools_cols)
    (hdisc : preV.disc_cols = [])
    (hforced : env.forced_explicit = false)
    (hval : preV.composite_ucs = env.unique_constraints)
    (hsk : ∀ col ∈ env.tmeta.columns, ¬ skipsNullable env preM col)
    (rows : List Row) (trk : Trackers) (stM : SharedState) (stV : VGState)
    (rng : PyRand)
    (hpools : stV.global_unique_value_pools = stM.global_unique_value_pools)
    (hctr : countersSim stV.composite_unique_counters
      stM.composite_unique_counters)
    (hpk : alookup stM.pk_next_vals env.node = none) (batch_idx : Nat) :
    (vgBatchStep env preV (rows, trk, stV, rng) batch_idx).1 =
        (genBatchStep env preM (rows, trk, stM, rng) batch_idx).1 ∧
      (vgBatchStep env preV (rows, trk, stV, rng) batch_idx).2.1 =
        (genBatchStep env preM (rows, trk, stM, rng) batch_idx).2.1 ∧
      (vgBatchStep env preV (rows, trk, stV, rng) batch_idx).2.2.2 =
        (genBatchStep env preM (rows, trk, stM, rng) batch_idx).2.2.2 ∧
      (vgBatchStep env preV (rows, trk, stV, rng)
          batch_idx).2.2.1.global_unique_value_pools =
        (genBatchStep env preM (rows, trk, stM, rng)
          batch_idx).2.2.1.global_unique_value_pools ∧
      countersSim
        (vgBatchStep env preV (rows, trk, stV, rng)
          batch_idx).2.2.1.composite_unique_counters
        (genBatchStep env preM (rows, trk, stM, rng)
          batch_idx).2.2.1.composite_unique_counters ∧
      alookup (genBatchStep env preM (rows, trk, stM, rng)
          batch_idx).2.2.1.pk_next_vals env.node = none := by
  obtain ⟨hrow, hrng, hp, hs, hpkeq⟩ := genRow_equiv env preM preV h1 h2 h3
    hdisc hforced batch_idx stM stV rng hsk hpools hctr hpk
  simp only [vgBatchStep, genBatchStep, hval, hrow, hrng]
  refine ⟨by trivial, by trivial, by trivial, hp, hs, ?_⟩
  rw [hpkeq]
  exact hpk

/-- The batch loop matches between the generators. -/
theorem batchFold_equiv (env : GenEnv) (preM : BatchPre) (preV : VGPre)
    (h1 : preV.single_unique_cols = preM.single_unique_cols)
    (h2 : preV.seq_cols = preM.seq_cols)
    (h3 : preV.pools_cols = preM.pools_cols)
    (hdisc : preV.disc_cols = [])
    (hforced : env.forced_explicit = false)
    (hval : preV.composite_ucs = env.unique_constraints)
    (hsk : ∀ col ∈ env.tmeta.columns, ¬ skipsNullable env preM col) :
    ∀ (idxs : List Nat) (rows : List Row) (trk : Trackers) (stM : SharedState)
      (stV : VGState) (rng : PyRand),
      stV.global_unique_value_pools = stM.global_unique_value_pools →
      countersSim stV.composite_unique_counters
        stM.composite_unique_counters →
      alookup stM.pk_next_vals env.node = none →
      (idxs.foldl (vgBatchStep env preV) (rows, trk, stV, rng)).1 =
        (idxs.foldl (genBatchStep env preM) (rows, trk, stM, rng)).1 := by
  intro idxs
  induction idxs with
  | nil =>
    intro rows trk stM stV rng _ _ _
    rfl
  | cons i rest ih =>
    intro rows trk stM stV rng hpools hctr hpk
    simp only [List.foldl_cons]
    obtain ⟨hrow, htrk, hrng, hp, hs, hpk₂⟩ := batchStep_equiv env preM preV
      h1 h2 h3 hdisc hforced hval hsk rows trk stM stV rng hpools hctr hpk i
    have hrec := ih (vgBatchStep env preV (rows, trk, stV, rng) i).1
      (vgBatchStep env preV (rows, trk, stV, rng) i).2.1
      (genBatchStep env preM (rows, trk, stM, rng) i).2.2.1
      (vgBatchStep env preV (rows, trk, stV, rng) i).2.2.1
      (vgBatchStep env preV (rows, trk, stV, rng) i).2.2.2
      hp hs hpk₂
    have hacc : ((vgBatchStep env preV (rows, trk, stV, rng) i).1,
        (vgBatchStep env preV (rows, trk, stV, rng) i).2.1,
        (genBatchStep env preM (rows, trk, stM, rng) i).2.2.1,
        (vgBatchStep env preV (rows, trk, stV, rng) i).2.2.2) =
        genBatchStep env preM (rows, trk, stM, rng) i := by
      rw [hrow, htrk, hrng]
    rw [hacc] at hrec
    exact hrec

/-- C10 (amended): the modular `ValueGenerator.generate_batch` returns
the same row list as the monolithic `generate_batch_fast` for identical
metadata, constraints, configuration, pools and random stream, *on the
common domain*: no conditional FKs on the node, the table not a
forced-explicit parent and without a PK sequence entry, no single-column
unique constraints, thread-local counters in correspondence with the
monolith's plain counters, and no nullable non-unique unconfigured
column.  Outside that domain the two differ (see the counterexample:
the monolith leaves nullable unconfigured columns NULL, lines 519-521,
while the modular generator draws a default value). -/
theorem C10_modular_equiv_monolith (env : GenEnv) (fks : List FKMeta)
    (start_idx end_idx : Nat) (rng : PyRand) (st : SharedState)
    (vgst : VGState)
    (hpools : vgst.global_unique_value_pools = st.global_unique_value_pools)
    (hctr : countersSim vgst.composite_unique_counters
      st.composite_unique_counters)
    (hpk : alookup st.pk_next_vals env.node = none)
    (hforced : env.forced_explicit = false)
    (hdisc : discriminatorCols fks env.node = [])
    (hsingle : ∀ uc ∈ env.unique_constraints, uc.columns.length ≠ 1)
    (hsk : ∀ col ∈ env.tmeta.columns,
      ¬ skipsNullable env (batchPre env st) col) :
    (vg_generate_batch env fks start_idx end_idx rng vgst).1 =
      (generate_batch_fast env start_idx end_idx rng st).1 := by
  have h1 : (vgPre env fks vgst).single_unique_cols =
      (batchPre env st).single_unique_cols := rfl
  have h2 : (vgPre env fks vgst).seq_cols = (batchPre env st).seq_cols := by
    simp only [vgPre, batchPre, hdisc, vgColsNeedingSequential_no_disc]
  have h3 : (vgPre env fks vgst).pools_cols =
      (batchPre env st).pools_cols := by
    simp only [vgPre, batchPre, uniqueColsWithGlobalPools, hpools]
  have hdiscV : (vgPre env fks vgst).disc_cols = [] := by
    simp only [vgPre]
    exact hdisc
  have hcomp : (vgPre env fks vgst).composite_ucs =
      env.unique_constraints := by
    simp only [vgPre, compositeUniqueConstraints]
    exact List.filter_eq_self.mpr (fun uc huc => by
      simpa using hsingle uc huc)
  have hfold := batchFold_equiv env (batchPre env st) (vgPre env fks vgst)
    h1 h2 h3 hdiscV hforced hcomp hsk
    ((List.range (end_idx - start_idx)).map (start_idx + ·))
    [] (initTrackers env.unique_constraints) st vgst rng hpools hctr hpk
  simp only [vg_generate_batch, generate_batch_fast, hcomp]
  exact hfold

/-- C10 witness: the amended equivalence at a concrete two-row instance
with a NOT-NULL integer column. -/
theorem C10_modular_equiv_witness :
    (vg_generate_batch c10wenv [] 0 2 ⟨[5, 6]⟩ {}).1 =
      (generate_batch_fast c10wenv 0 2 ⟨[5, 6]⟩ {}).1 :=
  C10_modular_equiv_monolith c10wenv [] 0 2 ⟨[5, 6]⟩ {} {} rfl
    (fun _ => ⟨⟨by simp, fun h => by simp at h⟩, rfl⟩) rfl rfl rfl
    (by decide) (by decide)

/-- C10 counterexample: on `db.V(v int NULL)` with no configuration the
monolith skips the column (lines 519-521), emitting the row `{}` —
rendered as NULL — while the modular generator has no skip rule and
draws `randint(0, 10000)` (value_generator lines 325-327 and 429):
the two generators disagree on identical inputs. -/
theorem C10_counterexample_nullable_unconfigured :
    (vg_generate_batch c10env [] 0 1 ⟨[0]⟩ {}).1 ≠
        (generate_batch_fast c10env 0 1 ⟨[0]⟩ {}).1 ∧
      (generate_batch_fast c10env 0 1 ⟨[0]⟩ {}).1 = [[]] ∧
      (vg_generate_batch c10env [] 0 1 ⟨[0]⟩ {}).1 =
        [[("v", Value.vInt 0)]] := by
  refine ⟨by decide, by decide, by decide⟩

end SynthGen
